import Mathlib

/-! The quantum-dot occupation kernel of hvi-sweeper.

Shallow embedding of `quantum_dot_simulator.h`, `quantum_dot_simulator.cpp` and of the
voltage encoding of `tb_quantum_dot_simulator.cpp`.

Conventions of the embedding.

* `float` is idealised as an ordered field `K` with exact arithmetic; every definition is
  generic in `K`, so it runs on `ℚ` and is reasoned about on `ℝ`.
* Where rounding decides a statement, the definitions named `..._binary32` repeat lines 16 to
  150 over `ℚ` with the result of every operation rounded to binary32 by `fl32` (24 significant
  bits, nearest, ties to even).  Their exponent is not bounded: overflow, subnormal numbers,
  infinities and NaN are outside both embeddings.  The underflow of the exponential is a
  property asked of `expf`: for the real exponential, `underflow_below`.  Statements on the
  loops in `float` arithmetic take the table `w` of the 25 weights as given, with a bound that
  keeps the totals below the largest `float`.
* `hls::exp` lives in `hls_math.h`, which is not part of the sources: it is the parameter
  `expf`.  Statements that need a property of the exponential say which one.
* `short` and `char` values are integers; the conversion to `short` is `toShort`.
* The file-scope constants of the header are the fields of `DeviceParameters`; the values
  written in the header are `reference`.
-/

namespace QuantumDot

/-! ## quantum_dot_simulator.h -/

/-- The file-scope device constants of `quantum_dot_simulator.h` (lines 8 to 19). -/
structure DeviceParameters (K : Type) where
  /-- Maximum number of electrons in a dot. -/
  N_max : ℕ
  /-- Capacitance of gate 1. -/
  Cg1 : K
  /-- Capacitance of gate 2. -/
  Cg2 : K
  /-- Capacitance of the source. -/
  CL : K
  /-- Capacitance of the drain. -/
  CR : K
  /-- Elementary charge. -/
  e : K
  /-- Thermal energy. -/
  kBT : K

/-- The values the header gives to the device constants. -/
def reference {K : Type} [LinearOrderedField K] : DeviceParameters K where
  N_max := 4
  Cg1 := 1.4
  Cg2 := 1.2
  CL := 0.4
  CR := 0.4
  e := 1.0
  kBT := 0.01

/-- The header with the gate capacitances of its lines 13 and 14 (`Cg1 = Cg2 = 3`), the other
constants unchanged. -/
def equal_gates {K : Type} [LinearOrderedField K] : DeviceParameters K where
  N_max := 4
  Cg1 := 3
  Cg2 := 3
  CL := 0.4
  CR := 0.4
  e := 1.0
  kBT := 0.01

/-- Modelled from the spec: `hls::abs` of `hls_math.h` (not in the sources), the absolute
value. -/
def hls_abs {K : Type} [LinearOrderedField K] (x : K) : K :=
  if 0 ≤ x then x else -x

/-- Modelled from the spec: `hls::round` of `hls_math.h` (not in the sources), rounding to the
nearest integer with halves away from zero.  The integral value is returned as an integer. -/
def hls_round {K : Type} [LinearOrderedField K] [FloorRing K] (x : K) : ℤ :=
  if 0 ≤ x then ⌊x + 1 / 2⌋ else -⌊-x + 1 / 2⌋

/-- Conversion of an integral value to `short`: the low 16 bits, read as two's complement. -/
def toShort (z : ℤ) : ℤ :=
  (z + 32768) % 65536 - 32768

/-- Header line 21. -/
def Cg1_carre {K : Type} [LinearOrderedField K] (p : DeviceParameters K) : K :=
  p.Cg1 * p.Cg1

/-- Header line 22. -/
def Cg2_carre {K : Type} [LinearOrderedField K] (p : DeviceParameters K) : K :=
  p.Cg2 * p.Cg2

/-- Header line 23. -/
def Cg1_Cg2 {K : Type} [LinearOrderedField K] (p : DeviceParameters K) : K :=
  p.Cg1 * p.Cg2

/-- Header line 24. -/
def inv_kBT {K : Type} [LinearOrderedField K] (p : DeviceParameters K) : K :=
  -1 / p.kBT

/-- Header line 26. -/
def e_carre {K : Type} [LinearOrderedField K] (p : DeviceParameters K) : K :=
  p.e * p.e

/-- Header line 27. -/
def e_carre_inv {K : Type} [LinearOrderedField K] (p : DeviceParameters K) : K :=
  1 / e_carre p

/-- Header line 28. -/
def e_abs {K : Type} [LinearOrderedField K] (p : DeviceParameters K) : K :=
  hls_abs p.e

/-- Header line 29. -/
def e_abs_inv {K : Type} [LinearOrderedField K] (p : DeviceParameters K) : K :=
  -1 / e_abs p

/-- Header line 35. -/
def fullscale {K : Type} [LinearOrderedField K] : K :=
  2.0

/-- Header line 36: digitizer voltage to integer conversion factor. -/
def DIG_factor {K : Type} [LinearOrderedField K] : K :=
  fullscale / (((1 <<< 15 : ℕ) : K) - 1)

/-- Header line 38: occupation value to `short` conversion factor. -/
def OUT_factor {K : Type} [LinearOrderedField K] : K :=
  ((1 <<< 12 : ℕ) : K)

/-! ## quantum_dot_simulator.cpp, before the loops (lines 16 to 85) -/

/-- Line 18. -/
def C1 {K : Type} [LinearOrderedField K] (p : DeviceParameters K) (Cm : K) : K :=
  p.CL + p.Cg1 + Cm

/-- Line 19. -/
def C2 {K : Type} [LinearOrderedField K] (p : DeviceParameters K) (Cm : K) : K :=
  p.CR + p.Cg2 + Cm

/-- Line 20. -/
def Cm_carre {K : Type} [LinearOrderedField K] (Cm : K) : K :=
  Cm * -Cm

/-- Lines 21 and 22. -/
def C_arg {K : Type} [LinearOrderedField K] (p : DeviceParameters K) (Cm : K) : K :=
  let C_arg := C1 p Cm * C2 p Cm
  C_arg + Cm_carre Cm

/-- Lines 24 and 25. -/
def C_e_arg {K : Type} [LinearOrderedField K] (p : DeviceParameters K) (Cm : K) : K :=
  let C_e_arg := e_carre p / C_arg p Cm
  C_e_arg * inv_kBT p

/-- Line 27. -/
def E_C1 {K : Type} [LinearOrderedField K] (p : DeviceParameters K) (Cm : K) : K :=
  C2 p Cm

/-- Line 28. -/
def E_C2 {K : Type} [LinearOrderedField K] (p : DeviceParameters K) (Cm : K) : K :=
  C1 p Cm

/-- Line 29. -/
def E_Cm {K : Type} [LinearOrderedField K] (Cm : K) : K :=
  Cm

/-- Lines 31 and 32: a voltage code decoded to a voltage. -/
def Vg {K : Type} [LinearOrderedField K] (V : ℤ) : K :=
  (V : K) * DIG_factor

/-- Lines 70 to 85, with `Vg1` and `Vg2` the decoded voltages. -/
def param3 {K : Type} [LinearOrderedField K] (p : DeviceParameters K) (Vg1 Vg2 Cm : K) : K :=
  let Vg1_carre := Vg1 * Vg1
  let Vg2_carre := Vg2 * Vg2
  let ttmp4 := Cg1_carre p * Vg1_carre
  let ttmp4 := ttmp4 * E_C1 p Cm
  let ttmp5 := Cg2_carre p * Vg2_carre
  let ttmp5 := ttmp5 * E_C2 p Cm
  let ttmp6 := ttmp4 + ttmp5
  let ttmp6 := ttmp6 * 0.5
  let ttmp7 := Cg1_Cg2 p * Vg1
  let ttmp7 := ttmp7 * Vg2
  let ttmp7 := ttmp7 * E_Cm Cm
  let ttmp7 := ttmp7 + ttmp6
  ttmp7 * e_carre_inv p

/-! ## The body of the inner loop (lines 91 to 128) -/

/-- Lines 94 to 105. -/
def param1 {K : Type} [LinearOrderedField K] (p : DeviceParameters K) (Cm : K)
    (N1 N2 : ℕ) : K :=
  let N1_carre : K := ((N1 * N1 : ℕ) : K)
  let N2_carre : K := ((N2 * N2 : ℕ) : K)
  let tmp1 := N1_carre * E_C1 p Cm
  let tmp2 := N2_carre * E_C2 p Cm
  let tmp3 := tmp1 + tmp2
  let tmp3 := tmp3 * 0.5
  let tmp4 : K := ((N1 * N2 : ℕ) : K)
  let tmp4 := tmp4 * E_Cm Cm
  tmp3 + tmp4

/-- Lines 108 to 117. -/
def param2 {K : Type} [LinearOrderedField K] (p : DeviceParameters K) (Vg1 Vg2 Cm : K)
    (N1 N2 : ℕ) : K :=
  let Cg1_Vg1 := p.Cg1 * Vg1
  let Cg2_Vg2 := p.Cg2 * Vg2
  let ttmp1 := (N1 : K) * E_C1 p Cm
  let ttmp1 := ttmp1 + (N2 : K) * E_Cm Cm
  let ttmp1 := ttmp1 * Cg1_Vg1
  let ttmp2 := (N1 : K) * E_Cm Cm
  let ttmp2 := ttmp2 + (N2 : K) * E_C2 p Cm
  let ttmp2 := ttmp2 * Cg2_Vg2
  let ttmp3 := ttmp1 + ttmp2
  ttmp3 * e_abs_inv p

/-- Line 119. -/
def E {K : Type} [LinearOrderedField K] (p : DeviceParameters K) (Vg1 Vg2 Cm : K)
    (N1 N2 : ℕ) : K :=
  param1 p Cm N1 N2 + param2 p Vg1 Vg2 Cm N1 N2 + param3 p Vg1 Vg2 Cm

/-- Line 121. -/
def arg {K : Type} [LinearOrderedField K] (p : DeviceParameters K) (Vg1 Vg2 Cm : K)
    (N1 N2 : ℕ) : K :=
  E p Vg1 Vg2 Cm N1 N2 * C_e_arg p Cm

/-- Line 123: the weight of the configuration `(N1, N2)`. -/
def exp_arg {K : Type} [LinearOrderedField K] (p : DeviceParameters K) (expf : K → K)
    (V1 V2 : ℤ) (Cm : K) (N1 N2 : ℕ) : K :=
  expf (arg p (Vg V1) (Vg V2) Cm N1 N2)

/-! ## The loops (lines 87 to 135) -/

/-- The variables the loops write: the two arrays, the two totals, and (ghost) the list of the
configurations whose weight has been evaluated, oldest first. -/
structure LoopState (K : Type) where
  /-- The array `sum_Z`. -/
  sum_Z : ℕ → K
  /-- The array `sum_moy`. -/
  sum_moy : ℕ → K
  /-- The total `sumsum_Z`. -/
  sumsum_Z : K
  /-- The total `sumsum_moy`. -/
  sumsum_moy : K
  /-- Ghost: the configurations `(N1, N2)` evaluated so far. -/
  evals : List (ℕ × ℕ)

/-- Lines 61 to 64: zero-initialised arrays and totals. -/
def LoopState.init {K : Type} [LinearOrderedField K] : LoopState K where
  sum_Z := fun _ => 0
  sum_moy := fun _ => 0
  sumsum_Z := 0
  sumsum_moy := 0
  evals := []

/-- One pass through the body of `Inner_Loop` (lines 91 to 128). -/
def Inner_Loop_body {K : Type} [LinearOrderedField K] (p : DeviceParameters K) (expf : K → K)
    (V1 V2 : ℤ) (Cm : K) (N2 : ℕ) (s : LoopState K) (N1 : ℕ) : LoopState K :=
  let exp_arg := exp_arg p expf V1 V2 Cm N1 N2
  let tmp_moy : K := ((N1 + N2 : ℕ) : K)
  let tmp_moy := tmp_moy * exp_arg
  { s with
    sum_Z := Function.update s.sum_Z N2 (s.sum_Z N2 + exp_arg)
    sum_moy := Function.update s.sum_moy N2 (s.sum_moy N2 + tmp_moy)
    evals := s.evals ++ [(N1, N2)] }

/-- Line 89: `for(N1 = 0; N1 <= N_max; N1++)`. -/
def Inner_Loop {K : Type} [LinearOrderedField K] (p : DeviceParameters K) (expf : K → K)
    (V1 V2 : ℤ) (Cm : K) (N2 : ℕ) (s : LoopState K) : LoopState K :=
  (List.range (p.N_max + 1)).foldl (Inner_Loop_body p expf V1 V2 Cm N2) s

/-- One pass through the body of `Outer_Loop` (lines 88 to 135). -/
def Outer_Loop_body {K : Type} [LinearOrderedField K] (p : DeviceParameters K) (expf : K → K)
    (V1 V2 : ℤ) (Cm : K) (s : LoopState K) (N2 : ℕ) : LoopState K :=
  let s := Inner_Loop p expf V1 V2 Cm N2 s
  { s with
    sumsum_Z := s.sumsum_Z + s.sum_Z N2
    sumsum_moy := s.sumsum_moy + s.sum_moy N2 }

/-- Line 87: `for(N2 = 0; N2 <= N_max; N2++)`, from the initial state. -/
def Outer_Loop {K : Type} [LinearOrderedField K] (p : DeviceParameters K) (expf : K → K)
    (V1 V2 : ℤ) (Cm : K) : LoopState K :=
  (List.range (p.N_max + 1)).foldl (Outer_Loop_body p expf V1 V2 Cm) LoopState.init

/-- The kernel (lines 11 to 153). -/
def quantum_dot_simulator {K : Type} [LinearOrderedField K] [FloorRing K]
    (p : DeviceParameters K) (expf : K → K) (V1 V2 : ℤ) (HVI_Cm : K) : ℤ :=
  let Cm := HVI_Cm
  let s := Outer_Loop p expf V1 V2 Cm
  if s.sumsum_Z = 0 then
    0
  else
    let nb_electrons := s.sumsum_moy / s.sumsum_Z
    let nb_electrons := nb_electrons * OUT_factor
    let t_nb_electrons := toShort (hls_round nb_electrons)
    t_nb_electrons

/-! ## tb_quantum_dot_simulator.cpp -/

/-- Lines 47 and 48 of the test bench: `(short) hls::round(v / DIG_factor)`. -/
def encode_voltage {K : Type} [LinearOrderedField K] [FloorRing K] (v : K) : ℤ :=
  toShort (hls_round (v / DIG_factor))

/-- Line 52 of the test bench: the returned code divided by `OUT_factor`. -/
def decode_occupation {K : Type} [LinearOrderedField K] (code : ℤ) : K :=
  1.0 * (code : K) / OUT_factor

/-! ## The loops and the final division for given weights -/

/-- Modelled from the spec: the underflow of `hls::exp` (`hls_math.h` is not in the sources;
the spec calls the test of line 138 a numeric-underflow guard).  A binary32 exponential
returns 0 when its result is below the smallest positive `float`, which is so for every
argument below `-104`; `underflow_below T f` is `f` with the results for the arguments below
`T` replaced by 0. -/
def underflow_below {K : Type} [LinearOrderedField K] (T : K) (f : K → K) (x : K) : K :=
  if x < T then 0 else f x

/-- The integer part of the base-2 logarithm of `n ≥ 1` (0 for `n = 0`), found by halving at
most `fuel` times; `fuel = n` is enough. -/
def log2_halving : ℕ → ℕ → ℕ
  | 0, _ => 0
  | fuel + 1, n => if n < 2 then 0 else log2_halving fuel (n / 2) + 1

/-- The binary exponent of a rational `x ≠ 0`: the integer `k` with `2^k ≤ |x| < 2^(k+1)`.
The difference of the logarithms of numerator and denominator is `k` or `k + 1`. -/
def binade (x : ℚ) : ℤ :=
  let k : ℤ := (log2_halving x.num.natAbs x.num.natAbs : ℤ) - (log2_halving x.den x.den : ℤ)
  if (2 : ℚ) ^ k ≤ |x| then k else k - 1

/-- The integer nearest to `q`, a half going to the even neighbour. -/
def round_even (q : ℚ) : ℤ :=
  if q - ⌊q⌋ < 1 / 2 then ⌊q⌋
  else if 1 / 2 < q - ⌊q⌋ then ⌊q⌋ + 1
  else if ⌊q⌋ % 2 = 0 then ⌊q⌋ else ⌊q⌋ + 1

/-- The binary32 value of a rational: 24 significant bits, round to nearest, ties to even.
The exponent is not bounded: overflow to infinity, subnormal results and NaN are not
modelled, and a division by 0 gives 0 as in the field. -/
def fl32 (x : ℚ) : ℚ :=
  if x = 0 then 0
  else
    let ulp : ℚ := 2 ^ (binade x - 23)
    round_even (x / ulp) * ulp

/-- Header line 21 as `float` arithmetic: the constants of the header are the decimals rounded
to binary32, and the result of every operation is rounded to binary32. -/
def Cg1_carre_binary32 (p : DeviceParameters ℚ) : ℚ :=
  fl32 (fl32 p.Cg1 * fl32 p.Cg1)

/-- Header line 22 as `float` arithmetic. -/
def Cg2_carre_binary32 (p : DeviceParameters ℚ) : ℚ :=
  fl32 (fl32 p.Cg2 * fl32 p.Cg2)

/-- Header line 23 as `float` arithmetic. -/
def Cg1_Cg2_binary32 (p : DeviceParameters ℚ) : ℚ :=
  fl32 (fl32 p.Cg1 * fl32 p.Cg2)

/-- Header line 24 as `float` arithmetic. -/
def inv_kBT_binary32 (p : DeviceParameters ℚ) : ℚ :=
  fl32 (-1 / fl32 p.kBT)

/-- Header line 26 as `float` arithmetic. -/
def e_carre_binary32 (p : DeviceParameters ℚ) : ℚ :=
  fl32 (fl32 p.e * fl32 p.e)

/-- Header line 27 as `float` arithmetic. -/
def e_carre_inv_binary32 (p : DeviceParameters ℚ) : ℚ :=
  fl32 (1 / e_carre_binary32 p)

/-- Header line 28 as `float` arithmetic. -/
def e_abs_binary32 (p : DeviceParameters ℚ) : ℚ :=
  hls_abs (fl32 p.e)

/-- Header line 29 as `float` arithmetic. -/
def e_abs_inv_binary32 (p : DeviceParameters ℚ) : ℚ :=
  fl32 (-1 / e_abs_binary32 p)

/-- Header line 36 as `float` arithmetic. -/
def DIG_factor_binary32 : ℚ :=
  fl32 (fl32 fullscale / (((1 <<< 15 : ℕ) : ℚ) - 1))

/-- Line 18 as `float` arithmetic.  `Cm` is the `float` the kernel receives. -/
def C1_binary32 (p : DeviceParameters ℚ) (Cm : ℚ) : ℚ :=
  fl32 (fl32 (fl32 p.CL + fl32 p.Cg1) + Cm)

/-- Line 19 as `float` arithmetic. -/
def C2_binary32 (p : DeviceParameters ℚ) (Cm : ℚ) : ℚ :=
  fl32 (fl32 (fl32 p.CR + fl32 p.Cg2) + Cm)

/-- Line 20 as `float` arithmetic. -/
def Cm_carre_binary32 (Cm : ℚ) : ℚ :=
  fl32 (Cm * -Cm)

/-- Lines 21 and 22 as `float` arithmetic: the determinant the code computes. -/
def C_arg_binary32 (p : DeviceParameters ℚ) (Cm : ℚ) : ℚ :=
  let C_arg := fl32 (C1_binary32 p Cm * C2_binary32 p Cm)
  fl32 (C_arg + Cm_carre_binary32 Cm)

/-- Lines 24 and 25 as `float` arithmetic. -/
def C_e_arg_binary32 (p : DeviceParameters ℚ) (Cm : ℚ) : ℚ :=
  let C_e_arg := fl32 (e_carre_binary32 p / C_arg_binary32 p Cm)
  fl32 (C_e_arg * inv_kBT_binary32 p)

/-- Lines 31 and 32 as `float` arithmetic. -/
def Vg_binary32 (V : ℤ) : ℚ :=
  fl32 ((V : ℚ) * DIG_factor_binary32)

/-- Lines 34, 35 and 70 to 85 as `float` arithmetic. -/
def param3_binary32 (p : DeviceParameters ℚ) (V1 V2 : ℤ) (Cm : ℚ) : ℚ :=
  let Vg1 := Vg_binary32 V1
  let Vg2 := Vg_binary32 V2
  let Vg1_carre := fl32 (Vg1 * Vg1)
  let Vg2_carre := fl32 (Vg2 * Vg2)
  let ttmp4 := fl32 (Cg1_carre_binary32 p * Vg1_carre)
  let ttmp4 := fl32 (ttmp4 * C2_binary32 p Cm)
  let ttmp5 := fl32 (Cg2_carre_binary32 p * Vg2_carre)
  let ttmp5 := fl32 (ttmp5 * C1_binary32 p Cm)
  let ttmp6 := fl32 (ttmp4 + ttmp5)
  let ttmp6 := fl32 (ttmp6 * 0.5)
  let ttmp7 := fl32 (Cg1_Cg2_binary32 p * Vg1)
  let ttmp7 := fl32 (ttmp7 * Vg2)
  let ttmp7 := fl32 (ttmp7 * Cm)
  let ttmp7 := fl32 (ttmp7 + ttmp6)
  fl32 (ttmp7 * e_carre_inv_binary32 p)

/-- Lines 94 to 105 as `float` arithmetic (`E_C1 = C2`, `E_C2 = C1`, `E_Cm = Cm`). -/
def param1_binary32 (p : DeviceParameters ℚ) (Cm : ℚ) (N1 N2 : ℕ) : ℚ :=
  let N1_carre : ℚ := ((N1 * N1 : ℕ) : ℚ)
  let N2_carre : ℚ := ((N2 * N2 : ℕ) : ℚ)
  let tmp1 := fl32 (N1_carre * C2_binary32 p Cm)
  let tmp2 := fl32 (N2_carre * C1_binary32 p Cm)
  let tmp3 := fl32 (tmp1 + tmp2)
  let tmp3 := fl32 (tmp3 * 0.5)
  let tmp4 : ℚ := ((N1 * N2 : ℕ) : ℚ)
  let tmp4 := fl32 (tmp4 * Cm)
  fl32 (tmp3 + tmp4)

/-- Lines 32, 33 and 108 to 117 as `float` arithmetic. -/
def param2_binary32 (p : DeviceParameters ℚ) (V1 V2 : ℤ) (Cm : ℚ) (N1 N2 : ℕ) : ℚ :=
  let Cg1_Vg1 := fl32 (fl32 p.Cg1 * Vg_binary32 V1)
  let Cg2_Vg2 := fl32 (fl32 p.Cg2 * Vg_binary32 V2)
  let ttmp1 := fl32 ((N1 : ℚ) * C2_binary32 p Cm)
  let ttmp1 := fl32 (ttmp1 + fl32 ((N2 : ℚ) * Cm))
  let ttmp1 := fl32 (ttmp1 * Cg1_Vg1)
  let ttmp2 := fl32 ((N1 : ℚ) * Cm)
  let ttmp2 := fl32 (ttmp2 + fl32 ((N2 : ℚ) * C1_binary32 p Cm))
  let ttmp2 := fl32 (ttmp2 * Cg2_Vg2)
  let ttmp3 := fl32 (ttmp1 + ttmp2)
  fl32 (ttmp3 * e_abs_inv_binary32 p)

/-- Line 119 as `float` arithmetic: the two additions from left to right. -/
def E_binary32 (p : DeviceParameters ℚ) (V1 V2 : ℤ) (Cm : ℚ) (N1 N2 : ℕ) : ℚ :=
  fl32 (fl32 (param1_binary32 p Cm N1 N2 + param2_binary32 p V1 V2 Cm N1 N2) +
    param3_binary32 p V1 V2 Cm)

/-- Line 121 as `float` arithmetic. -/
def arg_binary32 (p : DeviceParameters ℚ) (V1 V2 : ℤ) (Cm : ℚ) (N1 N2 : ℕ) : ℚ :=
  fl32 (E_binary32 p V1 V2 Cm N1 N2 * C_e_arg_binary32 p Cm)

/-- The body of `Inner_Loop` from line 125 on as `float` arithmetic, with the weight of
`(N1, N2)` given as `w N1 N2`. -/
def Inner_Loop_body_binary32 (w : ℕ → ℕ → ℚ) (N2 : ℕ) (s : LoopState ℚ) (N1 : ℕ) :
    LoopState ℚ :=
  let exp_arg := w N1 N2
  let tmp_moy : ℚ := ((N1 + N2 : ℕ) : ℚ)
  let tmp_moy := fl32 (tmp_moy * exp_arg)
  { s with
    sum_Z := Function.update s.sum_Z N2 (fl32 (s.sum_Z N2 + exp_arg))
    sum_moy := Function.update s.sum_moy N2 (fl32 (s.sum_moy N2 + tmp_moy))
    evals := s.evals ++ [(N1, N2)] }

/-- Lines 87 to 135 as `float` arithmetic, with the weight of `(N1, N2)` given as
`w N1 N2`. -/
def Outer_Loop_binary32 (N_max : ℕ) (w : ℕ → ℕ → ℚ) : LoopState ℚ :=
  (List.range (N_max + 1)).foldl
    (fun s N2 =>
      let s := (List.range (N_max + 1)).foldl (Inner_Loop_body_binary32 w N2) s
      { s with
        sumsum_Z := fl32 (s.sumsum_Z + s.sum_Z N2)
        sumsum_moy := fl32 (s.sumsum_moy + s.sum_moy N2) })
    LoopState.init

/-- Lines 87 to 150 as `float` arithmetic, with the weight of `(N1, N2)` given as
`w N1 N2`: the value `hls::round` returns, before the conversion to `short` (0 when the
branch of line 138 is taken). -/
def rounded_nb_electrons_binary32 (N_max : ℕ) (w : ℕ → ℕ → ℚ) : ℤ :=
  let s := Outer_Loop_binary32 N_max w
  if s.sumsum_Z = 0 then
    0
  else
    let nb_electrons := fl32 (s.sumsum_moy / s.sumsum_Z)
    let nb_electrons := fl32 (nb_electrons * OUT_factor)
    hls_round nb_electrons

/-- The kernel (lines 11 to 153) as `float` arithmetic, for an exponential `expf` on the
binary32 numbers. -/
def quantum_dot_simulator_binary32 (p : DeviceParameters ℚ) (expf : ℚ → ℚ) (V1 V2 : ℤ)
    (HVI_Cm : ℚ) : ℤ :=
  let Cm := HVI_Cm
  toShort (rounded_nb_electrons_binary32 p.N_max fun N1 N2 =>
    expf (arg_binary32 p V1 V2 Cm N1 N2))

/-- The voltage-coupling term as the specification writes it (section 4.3). -/
def param2_spec {K : Type} [LinearOrderedField K] (p : DeviceParameters K) (Vg1 Vg2 Cm : K)
    (N1 N2 : ℕ) : K :=
  -(p.Cg1 * Vg1 * (N1 * C2 p Cm + N2 * Cm) + p.Cg2 * Vg2 * (N1 * Cm + N2 * C2 p Cm)) / |p.e|

/-- The capacitance determinant as the specification writes it: `C1*C2 - Cm^2`. -/
def Cdet {K : Type} [LinearOrderedField K] (p : DeviceParameters K) (Cm : K) : K :=
  C1 p Cm * C2 p Cm - Cm ^ 2

/-! ## Auxiliary definitions for the proofs -/

/-- The weights of row `N2` summed over the list `l` of values of `N1`. -/
def rowZ {K : Type} [LinearOrderedField K] (p : DeviceParameters K) (expf : K → K)
    (V1 V2 : ℤ) (Cm : K) (l : List ℕ) (N2 : ℕ) : K :=
  (l.map fun N1 => exp_arg p expf V1 V2 Cm N1 N2).sum

/-- The moments of row `N2` summed over the list `l` of values of `N1`. -/
def rowM {K : Type} [LinearOrderedField K] (p : DeviceParameters K) (expf : K → K)
    (V1 V2 : ℤ) (Cm : K) (l : List ℕ) (N2 : ℕ) : K :=
  (l.map fun N1 => ((N1 + N2 : ℕ) : K) * exp_arg p expf V1 V2 Cm N1 N2).sum

/-- The array element `sum_Z[N2]` after the passes of the inner loop for the `N1` of `l`,
started from `z`, as `float` arithmetic. -/
def rowZ_binary32 (w : ℕ → ℕ → ℚ) (N2 : ℕ) (l : List ℕ) (z : ℚ) : ℚ :=
  l.foldl (fun z N1 => fl32 (z + w N1 N2)) z

/-- The array element `sum_moy[N2]` after the passes of the inner loop for the `N1` of `l`,
started from `m`, as `float` arithmetic. -/
def rowM_binary32 (w : ℕ → ℕ → ℚ) (N2 : ℕ) (l : List ℕ) (m : ℚ) : ℚ :=
  l.foldl (fun m N1 => fl32 (m + fl32 (((N1 + N2 : ℕ) : ℚ) * w N1 N2))) m

/-- One pass through the body of `Outer_Loop` as `float` arithmetic. -/
def Outer_Loop_body_binary32 (N_max : ℕ) (w : ℕ → ℕ → ℚ) (s : LoopState ℚ) (N2 : ℕ) :
    LoopState ℚ :=
  let s := (List.range (N_max + 1)).foldl (Inner_Loop_body_binary32 w N2) s
  { s with
    sumsum_Z := fl32 (s.sumsum_Z + s.sum_Z N2)
    sumsum_moy := fl32 (s.sumsum_moy + s.sum_moy N2) }

/-- The table of weights with the single entry `v` at `(a, b)` and 0 elsewhere. -/
def single_weight (a b : ℕ) (v : ℚ) : ℕ → ℕ → ℚ :=
  fun N1 N2 => if N1 = a ∧ N2 = b then v else 0

/-! ## The loops as sums -/

section Loops

variable {K : Type} [LinearOrderedField K]

theorem foldl_Inner_Loop_body (p : DeviceParameters K) (expf : K → K) (V1 V2 : ℤ) (Cm : K)
    (N2 : ℕ) (l : List ℕ) (s : LoopState K) :
    l.foldl (Inner_Loop_body p expf V1 V2 Cm N2) s =
      { sum_Z := Function.update s.sum_Z N2 (s.sum_Z N2 + rowZ p expf V1 V2 Cm l N2)
        sum_moy := Function.update s.sum_moy N2 (s.sum_moy N2 + rowM p expf V1 V2 Cm l N2)
        sumsum_Z := s.sumsum_Z
        sumsum_moy := s.sumsum_moy
        evals := s.evals ++ l.map fun N1 => (N1, N2) } := by
  induction l generalizing s with
  | nil => simp [rowZ, rowM]
  | cons a l ih =>
    rw [List.foldl_cons, ih]
    simp [Inner_Loop_body, rowZ, rowM, add_assoc]

theorem Outer_Loop_body_eq (p : DeviceParameters K) (expf : K → K) (V1 V2 : ℤ) (Cm : K)
    (s : LoopState K) (N2 : ℕ) :
    Outer_Loop_body p expf V1 V2 Cm s N2 =
      { sum_Z := Function.update s.sum_Z N2
          (s.sum_Z N2 + rowZ p expf V1 V2 Cm (List.range (p.N_max + 1)) N2)
        sum_moy := Function.update s.sum_moy N2
          (s.sum_moy N2 + rowM p expf V1 V2 Cm (List.range (p.N_max + 1)) N2)
        sumsum_Z := s.sumsum_Z +
          (s.sum_Z N2 + rowZ p expf V1 V2 Cm (List.range (p.N_max + 1)) N2)
        sumsum_moy := s.sumsum_moy +
          (s.sum_moy N2 + rowM p expf V1 V2 Cm (List.range (p.N_max + 1)) N2)
        evals := s.evals ++ (List.range (p.N_max + 1)).map fun N1 => (N1, N2) } := by
  simp [Outer_Loop_body, Inner_Loop, foldl_Inner_Loop_body]

theorem foldl_Outer_Loop_body (p : DeviceParameters K) (expf : K → K) (V1 V2 : ℤ) (Cm : K)
    (l : List ℕ) (hl : l.Nodup) (s : LoopState K)
    (hZ : ∀ i ∈ l, s.sum_Z i = 0) (hM : ∀ i ∈ l, s.sum_moy i = 0) :
    (l.foldl (Outer_Loop_body p expf V1 V2 Cm) s).sumsum_Z =
        s.sumsum_Z + (l.map (rowZ p expf V1 V2 Cm (List.range (p.N_max + 1)))).sum ∧
    (l.foldl (Outer_Loop_body p expf V1 V2 Cm) s).sumsum_moy =
        s.sumsum_moy + (l.map (rowM p expf V1 V2 Cm (List.range (p.N_max + 1)))).sum ∧
    (l.foldl (Outer_Loop_body p expf V1 V2 Cm) s).evals =
        s.evals ++ l.flatMap fun N2 => (List.range (p.N_max + 1)).map fun N1 => (N1, N2) := by
  induction l generalizing s with
  | nil => simp
  | cons a l ih =>
    rw [List.nodup_cons] at hl
    rw [List.foldl_cons]
    have hne : ∀ i ∈ l, i ≠ a := fun i hi h => hl.1 (h ▸ hi)
    have hZa := hZ a (List.mem_cons_self _ _)
    have hMa := hM a (List.mem_cons_self _ _)
    obtain ⟨h1, h2, h3⟩ := ih hl.2 (Outer_Loop_body p expf V1 V2 Cm s a)
      (fun i hi => by
        simp [Outer_Loop_body_eq, Function.update_noteq (hne i hi),
          hZ i (List.mem_cons_of_mem _ hi)])
      (fun i hi => by
        simp [Outer_Loop_body_eq, Function.update_noteq (hne i hi),
          hM i (List.mem_cons_of_mem _ hi)])
    refine ⟨?_, ?_, ?_⟩
    · rw [h1]; simp [Outer_Loop_body_eq, hZa, add_assoc]
    · rw [h2]; simp [Outer_Loop_body_eq, hMa, add_assoc]
    · rw [h3]; simp [Outer_Loop_body_eq]

theorem list_range_map_sum (f : ℕ → K) (n : ℕ) :
    ((List.range n).map f).sum = ∑ i in Finset.range n, f i := by
  induction n with
  | zero => simp
  | succ n ih => rw [List.range_succ, List.map_append, List.sum_append, ih,
      Finset.sum_range_succ]; simp

theorem Outer_Loop_sumsum_Z (p : DeviceParameters K) (expf : K → K) (V1 V2 : ℤ) (Cm : K) :
    (Outer_Loop p expf V1 V2 Cm).sumsum_Z =
      ∑ N2 in Finset.range (p.N_max + 1), ∑ N1 in Finset.range (p.N_max + 1),
        exp_arg p expf V1 V2 Cm N1 N2 := by
  have h := (foldl_Outer_Loop_body p expf V1 V2 Cm (List.range (p.N_max + 1))
    (List.nodup_range _) LoopState.init (fun _ _ => rfl) (fun _ _ => rfl)).1
  rw [Outer_Loop, h, list_range_map_sum]
  simp [LoopState.init, rowZ, list_range_map_sum]

theorem Outer_Loop_sumsum_moy (p : DeviceParameters K) (expf : K → K) (V1 V2 : ℤ) (Cm : K) :
    (Outer_Loop p expf V1 V2 Cm).sumsum_moy =
      ∑ N2 in Finset.range (p.N_max + 1), ∑ N1 in Finset.range (p.N_max + 1),
        ((N1 + N2 : ℕ) : K) * exp_arg p expf V1 V2 Cm N1 N2 := by
  have h := (foldl_Outer_Loop_body p expf V1 V2 Cm (List.range (p.N_max + 1))
    (List.nodup_range _) LoopState.init (fun _ _ => rfl) (fun _ _ => rfl)).2.1
  rw [Outer_Loop, h, list_range_map_sum]
  simp [LoopState.init, rowM, list_range_map_sum]

theorem Outer_Loop_evals (p : DeviceParameters K) (expf : K → K) (V1 V2 : ℤ) (Cm : K) :
    (Outer_Loop p expf V1 V2 Cm).evals =
      (List.range (p.N_max + 1)).flatMap fun N2 =>
        (List.range (p.N_max + 1)).map fun N1 => (N1, N2) := by
  have h := (foldl_Outer_Loop_body p expf V1 V2 Cm (List.range (p.N_max + 1))
    (List.nodup_range _) LoopState.init (fun _ _ => rfl) (fun _ _ => rfl)).2.2
  rw [Outer_Loop, h]
  simp [LoopState.init]

end Loops

/-- C2: with the header's constants, the totals left by the nested loops are the sums of the
weight and of `(N1 + N2)` times the weight over the 25 pairs of `[0,4] x [0,4]`; the loops
evaluate 25 weights, one for each pair, none twice. -/
theorem loops_accumulate_all_pairs {K : Type} [LinearOrderedField K] (expf : K → K)
    (V1 V2 : ℤ) (Cm : K) :
    (Outer_Loop reference expf V1 V2 Cm).sumsum_Z =
        ∑ c in Finset.range 5 ×ˢ Finset.range 5, exp_arg reference expf V1 V2 Cm c.1 c.2 ∧
    (Outer_Loop reference expf V1 V2 Cm).sumsum_moy =
        ∑ c in Finset.range 5 ×ˢ Finset.range 5,
          ((c.1 + c.2 : ℕ) : K) * exp_arg reference expf V1 V2 Cm c.1 c.2 ∧
    (Outer_Loop reference expf V1 V2 Cm).evals.length = 25 ∧
    ∀ N1 N2 : ℕ, N1 ≤ 4 → N2 ≤ 4 →
      (Outer_Loop reference expf V1 V2 Cm).evals.count (N1, N2) = 1 := by
  refine ⟨?_, ?_, ?_, ?_⟩
  · rw [Outer_Loop_sumsum_Z, Finset.sum_product_right]; rfl
  · rw [Outer_Loop_sumsum_moy, Finset.sum_product_right]; rfl
  · rw [Outer_Loop_evals]; rfl
  · rw [Outer_Loop_evals]
    have : ∀ N1 : ℕ, N1 ≤ 4 → ∀ N2 : ℕ, N2 ≤ 4 →
        (((List.range 5).flatMap fun N2 => (List.range 5).map fun N1 => (N1, N2)).count
          (N1, N2) = 1) := by decide
    intro N1 N2 h1 h2
    exact this N1 h1 N2 h2

section Basics

variable {K : Type} [LinearOrderedField K]

theorem hls_abs_eq_abs (x : K) : hls_abs x = |x| := by
  unfold hls_abs
  split_ifs with h
  · exact (abs_of_nonneg h).symm
  · exact (abs_of_neg (not_le.mp h)).symm

theorem OUT_factor_eq : (OUT_factor : K) = 4096 := by
  have h : (1 <<< 12 : ℕ) = 4096 := by decide
  rw [OUT_factor, h]
  norm_num

theorem DIG_factor_eq : (DIG_factor : K) = 2 / 32767 := by
  have h : (1 <<< 15 : ℕ) = 32768 := by decide
  rw [DIG_factor, fullscale, h]
  norm_num

theorem toShort_of_mem (z : ℤ) (h1 : -32768 ≤ z) (h2 : z ≤ 32767) : toShort z = z := by
  unfold toShort
  omega

end Basics

/-- C3, as the code has it: the voltage-coupling term of the inner loop is
`-(Cg1*Vg1*(N1*C2 + N2*Cm) + Cg2*Vg2*(N1*Cm + N2*C1)) / |e|`; the last product is with
`C1 = CL + Cg1 + Cm`, the coefficient `E_C2` of the code. -/
theorem param2_closed_form {K : Type} [LinearOrderedField K] (p : DeviceParameters K)
    (Vg1 Vg2 Cm : K) (N1 N2 : ℕ) :
    param2 p Vg1 Vg2 Cm N1 N2 =
      -(p.Cg1 * Vg1 * (N1 * (p.CR + p.Cg2 + Cm) + N2 * Cm) +
          p.Cg2 * Vg2 * (N1 * Cm + N2 * (p.CL + p.Cg1 + Cm))) / |p.e| := by
  simp only [param2, E_C1, E_C2, E_Cm, C1, C2, e_abs_inv, e_abs, hls_abs_eq_abs]
  ring

/-- C3, refuted as stated: at `N1 = 0`, `N2 = 1`, `V1 = 0`, `V2 = 32767`, `Cm = 0` the code
computes `-108/25` while the stated formula gives `-96/25`. -/
theorem param2_spec_counterexample :
    param2 (reference : DeviceParameters ℚ) (Vg 0) (Vg 32767) 0 0 1 = -108 / 25 ∧
    param2_spec (reference : DeviceParameters ℚ) (Vg 0) (Vg 32767) 0 0 1 = -96 / 25 ∧
    param2 (reference : DeviceParameters ℚ) (Vg 0) (Vg 32767) 0 0 1 ≠
      param2_spec (reference : DeviceParameters ℚ) (Vg 0) (Vg 32767) 0 0 1 := by
  have h1 : param2 (reference : DeviceParameters ℚ) (Vg 0) (Vg 32767) 0 0 1 = -108 / 25 := by
    simp only [param2, E_C1, E_C2, E_Cm, C1, C2, e_abs_inv, e_abs, hls_abs, Vg, DIG_factor_eq,
      reference]
    norm_num
  have h2 : param2_spec (reference : DeviceParameters ℚ) (Vg 0) (Vg 32767) 0 0 1
      = -96 / 25 := by
    simp only [param2_spec, C2, Vg, DIG_factor_eq, reference]
    norm_num
  refine ⟨h1, h2, ?_⟩
  rw [h1, h2]
  norm_num

/-- C4: `param1` is `0.5*(N1^2*C2 + N2^2*C1) + N1*N2*Cm`, `param3` is
`(0.5*Cg1^2*Vg1^2*C2 + 0.5*Cg2^2*Vg2^2*C1 + Cg1*Cg2*Vg1*Vg2*Cm) / e^2`, and the weight is the
exponential of `(param1 + param2 + param3) * C_e_arg`. -/
theorem param1_param3_energy {K : Type} [LinearOrderedField K] (p : DeviceParameters K)
    (expf : K → K) (V1 V2 : ℤ) (Cm : K) (N1 N2 : ℕ) :
    param1 p Cm N1 N2 =
        0.5 * ((N1 : K) ^ 2 * C2 p Cm + (N2 : K) ^ 2 * C1 p Cm) + N1 * N2 * Cm ∧
    param3 p (Vg V1) (Vg V2) Cm =
        (0.5 * p.Cg1 ^ 2 * (Vg V1) ^ 2 * C2 p Cm + 0.5 * p.Cg2 ^ 2 * (Vg V2) ^ 2 * C1 p Cm +
          p.Cg1 * p.Cg2 * Vg V1 * Vg V2 * Cm) / p.e ^ 2 ∧
    E p (Vg V1) (Vg V2) Cm N1 N2 =
        param1 p Cm N1 N2 + param2 p (Vg V1) (Vg V2) Cm N1 N2 + param3 p (Vg V1) (Vg V2) Cm ∧
    exp_arg p expf V1 V2 Cm N1 N2 =
        expf ((param1 p Cm N1 N2 + param2 p (Vg V1) (Vg V2) Cm N1 N2 +
          param3 p (Vg V1) (Vg V2) Cm) * C_e_arg p Cm) := by
  refine ⟨?_, ?_, rfl, rfl⟩
  · simp only [param1, E_C1, E_C2, E_Cm]
    push_cast
    ring
  · simp only [param3, E_C1, E_C2, E_Cm, Cg1_carre, Cg2_carre, Cg1_Cg2, e_carre_inv, e_carre]
    ring

/-- C5: when `Cdet = C1*C2 - Cm^2` is not zero, the divisor `C1*C2 + Cm * -Cm` the code forms
equals `Cdet` and is not zero, the argument the code forms is `-E*e^2 / (Cdet*kBT)`, and the
weight is the exponential of it. -/
theorem boltzmann_argument {K : Type} [LinearOrderedField K] (p : DeviceParameters K)
    (expf : K → K) (V1 V2 : ℤ) (Cm : K) (N1 N2 : ℕ) (hdet : Cdet p Cm ≠ 0) :
    C_arg p Cm = Cdet p Cm ∧ C_arg p Cm ≠ 0 ∧
    arg p (Vg V1) (Vg V2) Cm N1 N2 =
        -E p (Vg V1) (Vg V2) Cm N1 N2 * p.e ^ 2 / (Cdet p Cm * p.kBT) ∧
    exp_arg p expf V1 V2 Cm N1 N2 =
        expf (-E p (Vg V1) (Vg V2) Cm N1 N2 * p.e ^ 2 / (Cdet p Cm * p.kBT)) := by
  have h1 : C_arg p Cm = Cdet p Cm := by
    simp only [C_arg, Cm_carre, Cdet]
    ring
  have h2 : arg p (Vg V1) (Vg V2) Cm N1 N2 =
      -E p (Vg V1) (Vg V2) Cm N1 N2 * p.e ^ 2 / (Cdet p Cm * p.kBT) := by
    simp only [arg, C_e_arg, h1, e_carre, inv_kBT]
    field_simp
    ring
  exact ⟨h1, h1 ▸ hdet, h2, by rw [exp_arg, h2]⟩

/-- Witness of C5 at the header's constants and the test bench's `Cm = 0.2`. -/
theorem boltzmann_argument_witness :
    Cdet (reference : DeviceParameters ℚ) (1 / 5) ≠ 0 ∧
    (C_arg (reference : DeviceParameters ℚ) (1 / 5) = Cdet reference (1 / 5) ∧
    C_arg (reference : DeviceParameters ℚ) (1 / 5) ≠ 0 ∧
    arg (reference : DeviceParameters ℚ) (Vg 100) (Vg 200) (1 / 5) 1 2 =
        -E reference (Vg 100) (Vg 200) (1 / 5) 1 2 * (reference : DeviceParameters ℚ).e ^ 2 /
          (Cdet reference (1 / 5) * (reference : DeviceParameters ℚ).kBT) ∧
    exp_arg (reference : DeviceParameters ℚ) id 100 200 (1 / 5) 1 2 =
        id (-E reference (Vg 100) (Vg 200) (1 / 5) 1 2 * (reference : DeviceParameters ℚ).e ^ 2 /
          (Cdet reference (1 / 5) * (reference : DeviceParameters ℚ).kBT))) :=
  ⟨by simp only [Cdet, C1, C2, reference]; norm_num,
   boltzmann_argument reference id 100 200 (1 / 5) 1 2
     (by simp only [Cdet, C1, C2, reference]; norm_num)⟩

section Sums

variable {K : Type} [LinearOrderedField K]

theorem quantum_dot_simulator_eq [FloorRing K] (p : DeviceParameters K) (expf : K → K)
    (V1 V2 : ℤ) (Cm : K) :
    quantum_dot_simulator p expf V1 V2 Cm =
      if (Outer_Loop p expf V1 V2 Cm).sumsum_Z = 0 then 0
      else toShort (hls_round ((Outer_Loop p expf V1 V2 Cm).sumsum_moy /
              (Outer_Loop p expf V1 V2 Cm).sumsum_Z * 4096)) := by
  simp only [quantum_dot_simulator, OUT_factor_eq]

end Sums

section RoundTrip

variable {K : Type} [LinearOrderedField K] [FloorRing K]

theorem hls_round_near (x : K) : |(hls_round x : K) - x| ≤ 1 / 2 := by
  unfold hls_round
  split_ifs with h
  · have hle := Int.floor_le (x + 1 / 2)
    have hlt := Int.lt_floor_add_one (x + 1 / 2)
    rw [abs_le]
    constructor <;> linarith
  · have hle := Int.floor_le (-x + 1 / 2)
    have hlt := Int.lt_floor_add_one (-x + 1 / 2)
    push_cast
    rw [abs_le]
    constructor <;> linarith

theorem hls_round_mono {x y : K} (h : x ≤ y) : hls_round x ≤ hls_round y := by
  unfold hls_round
  split_ifs with hx hy hy
  · exact Int.floor_mono (by linarith)
  · exact absurd (hx.trans h) hy
  · have h1 : (0 : ℤ) ≤ ⌊-x + 1 / 2⌋ := Int.floor_nonneg.mpr (by linarith)
    have h2 : (0 : ℤ) ≤ ⌊y + 1 / 2⌋ := Int.floor_nonneg.mpr (by linarith)
    omega
  · exact neg_le_neg (Int.floor_mono (by linarith))

theorem hls_round_intCast (z : ℤ) : hls_round (z : K) = z := by
  unfold hls_round
  split_ifs with h
  · rw [Int.floor_eq_iff]
    constructor <;> linarith
  · rw [neg_eq_iff_eq_neg, Int.floor_eq_iff]
    push_cast
    constructor <;> linarith

end RoundTrip

/-- C10, refuted as stated: the voltage `v = 3` is encoded as `-16385`, which decodes to
`-32770/32767`, more than one quantization step away from `v`. -/
theorem round_trip_counterexample :
    encode_voltage (3 : ℚ) = -16385 ∧ (Vg (encode_voltage (3 : ℚ)) : ℚ) = -32770 / 32767 ∧
    ¬ (|(Vg (encode_voltage (3 : ℚ)) : ℚ) - 3| ≤ DIG_factor) := by
  have h : encode_voltage (3 : ℚ) = -16385 := by
    have hr : hls_round ((3 : ℚ) / DIG_factor) = 49151 := by
      rw [DIG_factor_eq, hls_round, if_pos (by norm_num), Int.floor_eq_iff]
      norm_num
    rw [encode_voltage, hr]
    decide
  refine ⟨h, ?_, ?_⟩
  · rw [h, Vg, DIG_factor_eq]
    norm_num
  · rw [h, Vg, DIG_factor_eq]
    norm_num [abs_le]

/-- C10, as the code has it: for every voltage `v` whose code fits a `short`, that is
`-32768 * DIG_factor ≤ v ≤ 32767 * DIG_factor`, encoding as the test bench does and decoding
as the kernel does recovers `v` within one quantization step `DIG_factor = 2 / 32767`. -/
theorem round_trip_in_range {K : Type} [LinearOrderedField K] [FloorRing K] (v : K)
    (hlo : -32768 * DIG_factor ≤ v) (hhi : v ≤ 32767 * DIG_factor) :
    |Vg (encode_voltage v) - v| ≤ DIG_factor ∧ (DIG_factor : K) = 2 / 32767 := by
  have hD : (0 : K) < DIG_factor := by rw [DIG_factor_eq]; norm_num
  have h1 : (-32768 : ℤ) ≤ hls_round (v / DIG_factor) := by
    have := hls_round_mono ((le_div_iff₀ hD).mpr hlo)
    rwa [show (-32768 : K) = ((-32768 : ℤ) : K) by norm_num, hls_round_intCast] at this
  have h2 : hls_round (v / DIG_factor) ≤ (32767 : ℤ) := by
    have := hls_round_mono ((div_le_iff₀ hD).mpr hhi)
    rwa [show (32767 : K) = ((32767 : ℤ) : K) by norm_num, hls_round_intCast] at this
  refine ⟨?_, DIG_factor_eq⟩
  rw [encode_voltage, toShort_of_mem _ h1 h2, Vg]
  have hn := hls_round_near (v / DIG_factor)
  have : (hls_round (v / DIG_factor) : K) * DIG_factor - v =
      ((hls_round (v / DIG_factor) : K) - v / DIG_factor) * DIG_factor := by
    field_simp
  rw [this, abs_mul, abs_of_pos hD]
  calc |(hls_round (v / DIG_factor) : K) - v / DIG_factor| * DIG_factor
      ≤ 1 / 2 * DIG_factor := mul_le_mul_of_nonneg_right hn hD.le
    _ ≤ DIG_factor := by linarith

/-- Witness of C10: the largest voltage of the test bench sweep, `v = 1.5`. -/
theorem round_trip_in_range_witness :
    -32768 * (DIG_factor : ℚ) ≤ 3 / 2 ∧ (3 / 2 : ℚ) ≤ 32767 * (DIG_factor : ℚ) ∧
    (|(Vg (encode_voltage (3 / 2 : ℚ)) : ℚ) - 3 / 2| ≤ (DIG_factor : ℚ) ∧
      (DIG_factor : ℚ) = 2 / 32767) :=
  ⟨by rw [DIG_factor_eq]; norm_num, by rw [DIG_factor_eq]; norm_num,
   round_trip_in_range (3 / 2 : ℚ) (by rw [DIG_factor_eq]; norm_num)
     (by rw [DIG_factor_eq]; norm_num)⟩

section Dominance

variable {K : Type} [LinearOrderedField K]

end Dominance

section ZeroVoltage

end ZeroVoltage

section Guarded

variable {K : Type} [LinearOrderedField K]

theorem C_arg_eq_Cdet (p : DeviceParameters K) (Cm : K) : C_arg p Cm = Cdet p Cm := by
  simp only [C_arg, Cm_carre, Cdet]
  ring

end Guarded

section Determinant

variable {K : Type} [LinearOrderedField K]

theorem reference_C_arg_eq (Cm : K) :
    C_arg (reference : DeviceParameters K) Cm = 2.88 + 3.4 * Cm := by
  simp only [C_arg, C1, C2, Cm_carre, reference]
  ring

end Determinant

section Square

variable {K : Type} [LinearOrderedField K]

theorem E_completed_square (p : DeviceParameters K) (he : p.e ≠ 0) (Vg1 Vg2 Cm : K)
    (N1 N2 : ℕ) :
    E p Vg1 Vg2 Cm N1 N2 =
      0.5 * (C2 p Cm * ((N1 : K) - p.Cg1 * Vg1 / |p.e|) ^ 2 +
          C1 p Cm * ((N2 : K) - p.Cg2 * Vg2 / |p.e|) ^ 2) +
        Cm * ((N1 : K) - p.Cg1 * Vg1 / |p.e|) * ((N2 : K) - p.Cg2 * Vg2 / |p.e|) := by
  have ha : |p.e| ≠ 0 := abs_ne_zero.mpr he
  have h2 : e_carre p = |p.e| * |p.e| := (abs_mul_abs_self p.e).symm
  simp only [E, param1, param2, param3, E_C1, E_C2, E_Cm, Cg1_carre, Cg2_carre, Cg1_Cg2,
    e_carre_inv, e_abs_inv, e_abs, hls_abs_eq_abs, h2]
  generalize |p.e| = a at ha
  push_cast
  field_simp
  ring

end Square

section Underflow

variable {K : Type} [LinearOrderedField K]

theorem underflow_below_nonneg (T : K) (f : K → K) (hf : ∀ x, 0 ≤ f x) (x : K) :
    0 ≤ underflow_below T f x := by
  unfold underflow_below
  split_ifs
  · exact le_rfl
  · exact hf x

theorem underflow_below_of_lt (T : K) (f : K → K) {x : K} (h : x < T) :
    underflow_below T f x = 0 :=
  if_pos h

theorem underflow_below_of_le (T : K) (f : K → K) {x : K} (h : T ≤ x) :
    underflow_below T f x = f x :=
  if_neg (not_lt.mpr h)

theorem sumsum_Z_eq_zero_iff (p : DeviceParameters K) (expf : K → K) (hnn : ∀ x, 0 ≤ expf x)
    (V1 V2 : ℤ) (Cm : K) :
    (Outer_Loop p expf V1 V2 Cm).sumsum_Z = 0 ↔
      ∀ N2 ∈ Finset.range (p.N_max + 1), ∀ N1 ∈ Finset.range (p.N_max + 1),
        exp_arg p expf V1 V2 Cm N1 N2 = 0 := by
  have hw : ∀ N1 N2 : ℕ, 0 ≤ exp_arg p expf V1 V2 Cm N1 N2 := fun N1 N2 => hnn _
  rw [Outer_Loop_sumsum_Z,
    Finset.sum_eq_zero_iff_of_nonneg fun N2 _ => Finset.sum_nonneg fun N1 _ => hw N1 N2]
  refine forall_congr' fun N2 => forall_congr' fun _ => ?_
  exact Finset.sum_eq_zero_iff_of_nonneg fun N1 _ => hw N1 N2

theorem sumsum_of_weights_zero (p : DeviceParameters K) (expf : K → K) (V1 V2 : ℤ) (Cm : K)
    (h : ∀ N1 N2 : ℕ, exp_arg p expf V1 V2 Cm N1 N2 = 0) :
    (Outer_Loop p expf V1 V2 Cm).sumsum_Z = 0 ∧ (Outer_Loop p expf V1 V2 Cm).sumsum_moy = 0 := by
  rw [Outer_Loop_sumsum_Z, Outer_Loop_sumsum_moy]
  simp [h]

theorem reference_arg_eq (V1 V2 : ℤ) (Cm : K) (N1 N2 : ℕ) :
    arg (reference : DeviceParameters K) (Vg V1) (Vg V2) Cm N1 N2 =
      (0.5 * ((1.6 + Cm) * ((N1 : K) - 2.8 * V1 / 32767) ^ 2 +
          (1.8 + Cm) * ((N2 : K) - 2.4 * V2 / 32767) ^ 2) +
        Cm * ((N1 : K) - 2.8 * V1 / 32767) * ((N2 : K) - 2.4 * V2 / 32767)) *
      (1 / (2.88 + 3.4 * Cm) * -100) := by
  have he : (reference : DeviceParameters K).e ≠ 0 := by simp only [reference]; norm_num
  have hC : C_e_arg (reference : DeviceParameters K) Cm = 1 / (2.88 + 3.4 * Cm) * -100 := by
    simp only [C_e_arg, reference_C_arg_eq]
    simp only [e_carre, inv_kBT, reference]
    norm_num
  rw [arg, hC, E_completed_square _ he]
  simp only [C1, C2, Vg, DIG_factor_eq, reference]
  norm_num
  ring_nf
  simp

end Underflow

section Binary32

/-- The loops in `float` arithmetic read the weights of the configurations of
`[0, N_max]^2` only. -/
theorem Outer_Loop_binary32_congr (N_max : ℕ) (w w2 : ℕ → ℕ → ℚ)
    (h : ∀ N1 ∈ List.range (N_max + 1), ∀ N2 ∈ List.range (N_max + 1), w N1 N2 = w2 N1 N2) :
    Outer_Loop_binary32 N_max w = Outer_Loop_binary32 N_max w2 := by
  unfold Outer_Loop_binary32
  refine List.foldl_ext _ _ _ fun s N2 h2 => ?_
  have hin : (List.range (N_max + 1)).foldl (Inner_Loop_body_binary32 w N2) s =
      (List.range (N_max + 1)).foldl (Inner_Loop_body_binary32 w2 N2) s := by
    refine List.foldl_ext _ _ _ fun t N1 h1 => ?_
    simp only [Inner_Loop_body_binary32, h N1 h1 N2 h2]
  simp only [hin]

theorem rounded_nb_electrons_binary32_congr (N_max : ℕ) (w w2 : ℕ → ℕ → ℚ)
    (h : ∀ N1 ∈ List.range (N_max + 1), ∀ N2 ∈ List.range (N_max + 1), w N1 N2 = w2 N1 N2) :
    rounded_nb_electrons_binary32 N_max w = rounded_nb_electrons_binary32 N_max w2 := by
  unfold rounded_nb_electrons_binary32
  rw [Outer_Loop_binary32_congr N_max w w2 h]

/-- When every weight is 0 the loops in `float` arithmetic leave both totals 0, and the
kernel takes the branch of line 138. -/
theorem Outer_Loop_binary32_zero :
    (Outer_Loop_binary32 4 (fun _ _ => 0)).sumsum_Z = 0 ∧
    (Outer_Loop_binary32 4 (fun _ _ => 0)).sumsum_moy = 0 ∧
    rounded_nb_electrons_binary32 4 (fun _ _ => 0) = 0 := by
  decide!

/-- When the weight of `(4, 4)` is 1 and every other weight is 0, the loops in `float`
arithmetic give `sumsum_Z = 1`, `sumsum_moy = 8`, and the kernel rounds 32768. -/
theorem Outer_Loop_binary32_top :
    (Outer_Loop_binary32 4 (fun N1 N2 => if N1 = 4 ∧ N2 = 4 then 1 else 0)).sumsum_Z = 1 ∧
    (Outer_Loop_binary32 4 (fun N1 N2 => if N1 = 4 ∧ N2 = 4 then 1 else 0)).sumsum_moy = 8 ∧
    rounded_nb_electrons_binary32 4 (fun N1 N2 => if N1 = 4 ∧ N2 = 4 then 1 else 0) = 32768 := by
  decide!

/-- When the weight of `(4, 2)` is 1 and every other weight is 0, the kernel in `float`
arithmetic rounds 24576. -/
theorem rounded_nb_electrons_binary32_four_two :
    rounded_nb_electrons_binary32 4 (fun N1 N2 => if N1 = 4 ∧ N2 = 2 then 1 else 0) = 24576 := by
  decide!

/-- For an exponential that returns 0 below `-104`, when all arguments of `[0, 4]^2` are below
`-104` the weights the loops read are those of the table of zeros. -/
theorem weights_binary32_zero (p : DeviceParameters ℚ) (expf : ℚ → ℚ)
    (h0 : ∀ x, x < -104 → expf x = 0) (V1 V2 : ℤ) (Cm : ℚ)
    (h : ∀ N1 ∈ List.range 5, ∀ N2 ∈ List.range 5, arg_binary32 p V1 V2 Cm N1 N2 < -104) :
    ∀ N1 ∈ List.range (4 + 1), ∀ N2 ∈ List.range (4 + 1),
      (fun N1 N2 => expf (arg_binary32 p V1 V2 Cm N1 N2)) N1 N2 =
        (fun _ _ => (0 : ℚ)) N1 N2 :=
  fun N1 h1 N2 h2 => h0 _ (h N1 h1 N2 h2)

/-- For an exponential that returns 0 below `-104` and 1 at 0, when the argument of `(a, b)`
is 0 and the other arguments of `[0, 4]^2` are below `-104` the weights the loops read are
those of the table with the single entry 1 at `(a, b)`. -/
theorem weights_binary32_single (p : DeviceParameters ℚ) (expf : ℚ → ℚ)
    (h0 : ∀ x, x < -104 → expf x = 0) (h1 : expf 0 = 1) (V1 V2 : ℤ) (Cm : ℚ) (a b : ℕ)
    (hab : arg_binary32 p V1 V2 Cm a b = 0)
    (h : ∀ N1 ∈ List.range 5, ∀ N2 ∈ List.range 5, ¬ (N1 = a ∧ N2 = b) →
      arg_binary32 p V1 V2 Cm N1 N2 < -104) :
    ∀ N1 ∈ List.range (4 + 1), ∀ N2 ∈ List.range (4 + 1),
      (fun N1 N2 => expf (arg_binary32 p V1 V2 Cm N1 N2)) N1 N2 =
        (fun N1 N2 => if N1 = a ∧ N2 = b then (1 : ℚ) else 0) N1 N2 := by
  intro N1 hN1 N2 hN2
  by_cases hc : N1 = a ∧ N2 = b
  · obtain ⟨rfl, rfl⟩ := hc
    simp only [hab, h1, and_self, if_true]
  · simp only [if_neg hc]
    exact h0 _ (h N1 hN1 N2 hN2 hc)

/-- The arguments in `float` arithmetic at `V1 = 18548`, `V2 = 25304`,
`Cm = -1776411/2^21`: 0 for `(4, 4)`, below `-104` for the other 24 configurations. -/
theorem arg_binary32_top :
    arg_binary32 reference 18548 25304 (-1776411 / 2097152) 4 4 = 0 ∧
    ∀ N1 ∈ List.range 5, ∀ N2 ∈ List.range 5, ¬ (N1 = 4 ∧ N2 = 4) →
      arg_binary32 reference 18548 25304 (-1776411 / 2097152) N1 N2 < -104 := by
  decide!

/-- The arguments in `float` arithmetic at `V1 = 32767`, `V2 = -32768`, `Cm = 0.2f`: all
below `-104`. -/
theorem arg_binary32_underflow :
    ∀ N1 ∈ List.range 5, ∀ N2 ∈ List.range 5,
      arg_binary32 reference 32767 (-32768) (fl32 0.2) N1 N2 < -104 := by
  decide!

/-- The arguments in `float` arithmetic with `Cg1 = Cg2 = 3` at `Cm = -14260633/2^23`: at
`V1 = 30447`, `V2 = 19523` the argument of `(4, 2)` is 0 and the others are below `-104`; at
the exchanged codes all are below `-104`. -/
theorem arg_binary32_exchange :
    arg_binary32 equal_gates 30447 19523 (-14260633 / 8388608) 4 2 = 0 ∧
    (∀ N1 ∈ List.range 5, ∀ N2 ∈ List.range 5, ¬ (N1 = 4 ∧ N2 = 2) →
      arg_binary32 equal_gates 30447 19523 (-14260633 / 8388608) N1 N2 < -104) ∧
    ∀ N1 ∈ List.range 5, ∀ N2 ∈ List.range 5,
      arg_binary32 equal_gates 19523 30447 (-14260633 / 8388608) N1 N2 < -104 := by
  decide!

/-- The energy and the argument in `float` arithmetic at `V1 = 0`, `V2 = 13653`, `Cm = 0.2f`
for `(0, 1)`: the energy rounds to `-2^-23`, below 0, and the argument is above 0. -/
theorem E_binary32_negative :
    E_binary32 reference 0 13653 (fl32 0.2) 0 1 = -1 / 8388608 ∧
    0 < arg_binary32 reference 0 13653 (fl32 0.2) 0 1 := by
  decide!

/-- The arguments in `float` arithmetic at `V1 = V2 = -10000`, `Cm = 0.2f`: about `-37.05` for
`(0, 0)`, below `-104` for the other 24 configurations. -/
theorem arg_binary32_origin :
    arg_binary32 reference (-10000) (-10000) (fl32 0.2) 0 0 = -4855677 / 131072 ∧
    ∀ N1 ∈ List.range 5, ∀ N2 ∈ List.range 5, ¬ (N1 = 0 ∧ N2 = 0) →
      arg_binary32 reference (-10000) (-10000) (fl32 0.2) N1 N2 < -104 := by
  decide!

theorem fl32_zero : fl32 0 = 0 := by
  simp [fl32]

/-- When only the weight of `(0, 0)` is not 0 and it is a binary32 number, the loops in `float`
arithmetic give `sumsum_Z` that weight and `sumsum_moy = 0`. -/
theorem Outer_Loop_binary32_origin (w : ℚ) (hw : fl32 w = w) :
    (Outer_Loop_binary32 4 (fun N1 N2 => if N1 = 0 ∧ N2 = 0 then w else 0)).sumsum_Z = w ∧
    (Outer_Loop_binary32 4 (fun N1 N2 => if N1 = 0 ∧ N2 = 0 then w else 0)).sumsum_moy = 0 := by
  simp [Outer_Loop_binary32, Inner_Loop_body_binary32, List.range_succ, List.range_zero,
    LoopState.init, Function.update, fl32_zero, hw]

/-- The kernel in `float` arithmetic returns 0 when all 25 arguments are below `-104`. -/
theorem quantum_dot_simulator_binary32_zero (expf : ℚ → ℚ) (h0 : ∀ x, x < -104 → expf x = 0)
    (p : DeviceParameters ℚ) (hp : p.N_max = 4) (V1 V2 : ℤ) (Cm : ℚ)
    (h : ∀ N1 ∈ List.range 5, ∀ N2 ∈ List.range 5, arg_binary32 p V1 V2 Cm N1 N2 < -104) :
    (Outer_Loop_binary32 4 fun N1 N2 => expf (arg_binary32 p V1 V2 Cm N1 N2)).sumsum_Z = 0 ∧
    quantum_dot_simulator_binary32 p expf V1 V2 Cm = 0 := by
  have hw := weights_binary32_zero p expf h0 V1 V2 Cm h
  constructor
  · rw [Outer_Loop_binary32_congr 4 _ _ hw]
    exact Outer_Loop_binary32_zero.1
  · simp only [quantum_dot_simulator_binary32, hp]
    rw [rounded_nb_electrons_binary32_congr 4 _ _ hw, Outer_Loop_binary32_zero.2.2]
    rfl

end Binary32

section Rounding

/-- The halving count is the integer part of the base-2 logarithm. -/
theorem log2_halving_spec (fuel n : ℕ) (h1 : 1 ≤ n) (hf : n ≤ fuel) :
    2 ^ log2_halving fuel n ≤ n ∧ n < 2 ^ (log2_halving fuel n + 1) := by
  induction fuel generalizing n with
  | zero => omega
  | succ fuel ih =>
    rw [log2_halving]
    split_ifs with h2
    · constructor
      · simpa using h1
      · simpa using h2
    · have h1' : 1 ≤ n / 2 := by omega
      have hf' : n / 2 ≤ fuel := by omega
      obtain ⟨ha, hb⟩ := ih (n / 2) h1' hf'
      constructor
      · rw [pow_succ]
        omega
      · rw [pow_succ]
        omega

/-- The binary exponent `k` of `x ≠ 0` satisfies `2^k ≤ |x| < 2^(k+1)`. -/
theorem binade_spec (x : ℚ) (hx : x ≠ 0) :
    (2 : ℚ) ^ binade x ≤ |x| ∧ |x| < (2 : ℚ) ^ (binade x + 1) := by
  have hn : 1 ≤ x.num.natAbs := Nat.one_le_iff_ne_zero.2 (by simpa using hx)
  have hd : 1 ≤ x.den := x.den_pos
  obtain ⟨na, nb⟩ := log2_halving_spec x.num.natAbs x.num.natAbs hn le_rfl
  obtain ⟨da, db⟩ := log2_halving_spec x.den x.den hd le_rfl
  have habs : |x| = (x.num.natAbs : ℚ) / (x.den : ℚ) := by
    conv_lhs => rw [← Rat.num_div_den x]
    rw [abs_div, Nat.abs_cast, Nat.cast_natAbs]
    push_cast
    rfl
  generalize ha : log2_halving x.num.natAbs x.num.natAbs = a at na nb
  generalize hb : log2_halving x.den x.den = b at da db
  have hdq : (0 : ℚ) < x.den := by exact_mod_cast hd
  have na' : (2 : ℚ) ^ a ≤ x.num.natAbs := by exact_mod_cast na
  have nb' : (x.num.natAbs : ℚ) < 2 ^ (a + 1) := by exact_mod_cast nb
  have da' : (2 : ℚ) ^ b ≤ x.den := by exact_mod_cast da
  have db' : (x.den : ℚ) < 2 ^ (b + 1) := by exact_mod_cast db
  -- `2^(a-b-1) < |x| < 2^(a-b+1)`
  have hlo : (2 : ℚ) ^ ((a : ℤ) - b - 1) < |x| := by
    rw [habs, lt_div_iff₀ hdq]
    calc (2 : ℚ) ^ ((a : ℤ) - b - 1) * x.den < 2 ^ ((a : ℤ) - b - 1) * 2 ^ (b + 1) :=
          mul_lt_mul_of_pos_left db' (by positivity)
      _ = 2 ^ a := by
          rw [← zpow_natCast, ← zpow_natCast, ← zpow_add₀ (by norm_num)]
          congr 1
          push_cast
          ring
      _ ≤ x.num.natAbs := na'
  have hhi : |x| < (2 : ℚ) ^ ((a : ℤ) - b + 1) := by
    rw [habs, div_lt_iff₀ hdq]
    calc (x.num.natAbs : ℚ) < 2 ^ (a + 1) := nb'
      _ = 2 ^ ((a : ℤ) - b + 1) * 2 ^ b := by
          rw [← zpow_natCast, ← zpow_natCast, ← zpow_add₀ (by norm_num)]
          congr 1
          push_cast
          ring
      _ ≤ 2 ^ ((a : ℤ) - b + 1) * x.den := mul_le_mul_of_nonneg_left da' (by positivity)
  unfold binade
  simp only [ha, hb]
  split_ifs with h
  · exact ⟨h, hhi⟩
  · refine ⟨hlo.le, ?_⟩
    rw [sub_add_cancel]
    exact not_le.1 h

/-- The integer `round_even` returns is within one half of its argument. -/
theorem round_even_near (q : ℚ) : |(round_even q : ℚ) - q| ≤ 1 / 2 := by
  have h1 := Int.floor_le q
  have h2 := Int.lt_floor_add_one q
  unfold round_even
  rw [abs_le]
  split_ifs with a b c
  · constructor <;> linarith
  · push_cast
    constructor <;> linarith
  · constructor <;> linarith
  · push_cast
    constructor <;> linarith

/-- The value `fl32` returns for `x ≠ 0` of binary exponent `k` is an integer multiple of
`2^(k-23)` within `2^(k-24)`, half a unit in the last place, of `x`. -/
theorem fl32_near (x : ℚ) (hx : x ≠ 0) :
    fl32 x = (round_even (x / 2 ^ (binade x - 23)) : ℚ) * 2 ^ (binade x - 23) ∧
    |fl32 x - x| ≤ 2 ^ (binade x - 24) := by
  have hu : (0 : ℚ) < 2 ^ (binade x - 23) := by positivity
  have hdef : fl32 x = (round_even (x / 2 ^ (binade x - 23)) : ℚ) * 2 ^ (binade x - 23) := by
    simp only [fl32, if_neg hx]
  refine ⟨hdef, ?_⟩
  have hn := round_even_near (x / 2 ^ (binade x - 23))
  have e : fl32 x - x =
      ((round_even (x / 2 ^ (binade x - 23)) : ℚ) - x / 2 ^ (binade x - 23)) *
        2 ^ (binade x - 23) := by
    rw [hdef, sub_mul, div_mul_cancel₀ _ hu.ne.symm]
  have e2 : (2 : ℚ) ^ (binade x - 24) = 1 / 2 * 2 ^ (binade x - 23) := by
    rw [show binade x - 24 = -1 + (binade x - 23) by ring, zpow_add₀ (by norm_num)]
    norm_num
  rw [e, abs_mul, abs_of_pos hu, e2]
  exact mul_le_mul_of_nonneg_right hn hu.le

end Rounding

section RoundingOrder

theorem round_even_mono {q r : ℚ} (h : q ≤ r) : round_even q ≤ round_even r := by
  by_contra hcon
  push_neg at hcon
  have h1 : round_even r + 1 ≤ round_even q := hcon
  have h2 : ((round_even r : ℤ) : ℚ) + 1 ≤ (round_even q : ℚ) := by exact_mod_cast h1
  have hq := abs_le.1 (round_even_near q)
  have hr := abs_le.1 (round_even_near r)
  have hqr : q = r := le_antisymm h (by linarith)
  rw [hqr] at hcon
  exact lt_irrefl _ hcon

theorem round_even_intCast (z : ℤ) : round_even (z : ℚ) = z := by
  unfold round_even
  rw [Int.floor_intCast, sub_self, if_pos (by norm_num)]

theorem round_even_neg (q : ℚ) : round_even (-q) = -round_even q := by
  have h1 := Int.floor_le q
  have h2 := Int.lt_floor_add_one q
  by_cases hint : q = (⌊q⌋ : ℚ)
  · rw [hint, ← Int.cast_neg, round_even_intCast, round_even_intCast]
  · have hlt : (⌊q⌋ : ℚ) < q := lt_of_le_of_ne h1 (Ne.symm hint)
    have hfl : ⌊-q⌋ = -⌊q⌋ - 1 := by
      rw [Int.floor_eq_iff]
      push_cast
      constructor <;> linarith
    unfold round_even
    rw [hfl]
    push_cast
    by_cases ha : q - ⌊q⌋ < 1 / 2
    · rw [if_pos ha, if_neg (by linarith), if_pos (by linarith)]
      ring
    · by_cases hb : 1 / 2 < q - ⌊q⌋
      · rw [if_neg ha, if_pos hb, if_pos (by linarith)]
        ring
      · rw [if_neg ha, if_neg hb, if_neg (by linarith), if_neg (by linarith)]
        by_cases hc : ⌊q⌋ % 2 = 0
        · rw [if_pos hc, if_neg (by omega)]
          ring
        · rw [if_neg hc, if_pos (by omega)]
          ring

theorem binade_neg (x : ℚ) : binade (-x) = binade x := by
  simp only [binade, Rat.num_neg_eq_neg_num, Int.natAbs_neg, Rat.den_neg_eq_den, abs_neg]

theorem fl32_neg (x : ℚ) : fl32 (-x) = -fl32 x := by
  by_cases hx : x = 0
  · simp [hx, fl32]
  · have hx' : -x ≠ 0 := neg_ne_zero.2 hx
    simp only [fl32, if_neg hx, if_neg hx', binade_neg, neg_div, round_even_neg]
    push_cast
    ring

/-- The rounding of a positive number stays in the closed binade of that number. -/
theorem fl32_mem_binade (x : ℚ) (hx : 0 < x) :
    (2 : ℚ) ^ binade x ≤ fl32 x ∧ fl32 x ≤ (2 : ℚ) ^ (binade x + 1) := by
  obtain ⟨hlo, hhi⟩ := binade_spec x hx.ne.symm
  rw [abs_of_pos hx] at hlo hhi
  have hu : (0 : ℚ) < 2 ^ (binade x - 23) := by positivity
  have e1 : (2 : ℚ) ^ binade x = ((2 ^ 23 : ℤ) : ℚ) * 2 ^ (binade x - 23) := by
    have : (((2 ^ 23 : ℤ) : ℚ)) = (2 : ℚ) ^ (23 : ℤ) := by norm_num
    rw [this, ← zpow_add₀ (by norm_num)]
    congr 1
    ring
  have e2 : (2 : ℚ) ^ (binade x + 1) = ((2 ^ 24 : ℤ) : ℚ) * 2 ^ (binade x - 23) := by
    have : (((2 ^ 24 : ℤ) : ℚ)) = (2 : ℚ) ^ (24 : ℤ) := by norm_num
    rw [this, ← zpow_add₀ (by norm_num)]
    congr 1
    ring
  have q1 : ((2 ^ 23 : ℤ) : ℚ) ≤ x / 2 ^ (binade x - 23) := by
    rw [le_div_iff₀ hu, ← e1]
    exact hlo
  have q2 : x / 2 ^ (binade x - 23) ≤ ((2 ^ 24 : ℤ) : ℚ) := by
    rw [div_le_iff₀ hu, ← e2]
    exact hhi.le
  have r1 := round_even_mono q1
  have r2 := round_even_mono q2
  rw [round_even_intCast] at r1 r2
  rw [(fl32_near x hx.ne.symm).1, e1, e2]
  constructor
  · exact mul_le_mul_of_nonneg_right (by exact_mod_cast r1) hu.le
  · exact mul_le_mul_of_nonneg_right (by exact_mod_cast r2) hu.le

theorem fl32_nonneg (x : ℚ) (hx : 0 ≤ x) : 0 ≤ fl32 x := by
  rcases hx.eq_or_lt with h | h
  · rw [← h]
    simp [fl32]
  · exact le_trans (by positivity) (fl32_mem_binade x h).1

theorem binade_mono (x y : ℚ) (hx : 0 < x) (hxy : x ≤ y) : binade x ≤ binade y := by
  obtain ⟨hlo, -⟩ := binade_spec x hx.ne.symm
  obtain ⟨-, hhi⟩ := binade_spec y (lt_of_lt_of_le hx hxy).ne.symm
  rw [abs_of_pos hx] at hlo
  rw [abs_of_pos (lt_of_lt_of_le hx hxy)] at hhi
  have h : (2 : ℚ) ^ binade x < 2 ^ (binade y + 1) := lt_of_le_of_lt (le_trans hlo hxy) hhi
  have := (zpow_lt_zpow_iff_right₀ (by norm_num : (1 : ℚ) < 2)).1 h
  omega

theorem fl32_mono_pos (x y : ℚ) (hx : 0 < x) (hxy : x ≤ y) : fl32 x ≤ fl32 y := by
  have hy : 0 < y := lt_of_lt_of_le hx hxy
  rcases (binade_mono x y hx hxy).eq_or_lt with h | h
  · rw [(fl32_near x hx.ne.symm).1, (fl32_near y hy.ne.symm).1, h]
    have hu : (0 : ℚ) < 2 ^ (binade y - 23) := by positivity
    refine mul_le_mul_of_nonneg_right ?_ hu.le
    exact_mod_cast round_even_mono (div_le_div_of_nonneg_right hxy hu.le)
  · calc fl32 x ≤ 2 ^ (binade x + 1) := (fl32_mem_binade x hx).2
      _ ≤ 2 ^ binade y := zpow_le_zpow_right₀ (by norm_num) (by omega)
      _ ≤ fl32 y := (fl32_mem_binade y hy).1

/-- Rounding to binary32 is monotone. -/
theorem fl32_mono {x y : ℚ} (hxy : x ≤ y) : fl32 x ≤ fl32 y := by
  rcases lt_trichotomy 0 x with hx | hx | hx
  · exact fl32_mono_pos x y hx hxy
  · rw [← hx] at hxy ⊢
    rw [fl32_zero]
    exact fl32_nonneg y hxy
  · rcases le_or_lt 0 y with hy | hy
    · have h1 : fl32 x ≤ 0 := by
        have := fl32_nonneg (-x) (by linarith)
        rw [fl32_neg] at this
        linarith
      exact le_trans h1 (fl32_nonneg y hy)
    · have := fl32_mono_pos (-y) (-x) (by linarith) (by linarith)
      rw [fl32_neg, fl32_neg] at this
      linarith

/-- In `float` arithmetic the determinant the code computes is not negative for a `float`
`Cm ≥ 0`. -/
theorem C_arg_binary32_nonneg (Cm : ℚ) (h0 : 0 ≤ Cm) (hfl : fl32 Cm = Cm) :
    0 ≤ C_arg_binary32 reference Cm := by
  have a1 : (0 : ℚ) ≤ fl32 (fl32 (reference : DeviceParameters ℚ).CL +
      fl32 (reference : DeviceParameters ℚ).Cg1) := by decide!
  have a2 : (0 : ℚ) ≤ fl32 (fl32 (reference : DeviceParameters ℚ).CR +
      fl32 (reference : DeviceParameters ℚ).Cg2) := by decide!
  have c1 : Cm ≤ C1_binary32 reference Cm := by
    have := fl32_mono (show Cm ≤ fl32 (fl32 (reference : DeviceParameters ℚ).CL +
      fl32 (reference : DeviceParameters ℚ).Cg1) + Cm by linarith)
    rwa [hfl] at this
  have c2 : Cm ≤ C2_binary32 reference Cm := by
    have := fl32_mono (show Cm ≤ fl32 (fl32 (reference : DeviceParameters ℚ).CR +
      fl32 (reference : DeviceParameters ℚ).Cg2) + Cm by linarith)
    rwa [hfl] at this
  have hprod : Cm * Cm ≤ C1_binary32 reference Cm * C2_binary32 reference Cm :=
    mul_le_mul c1 c2 h0 (le_trans h0 c1)
  have hP := fl32_mono hprod
  have hQ : Cm_carre_binary32 Cm = -fl32 (Cm * Cm) := by
    rw [Cm_carre_binary32, mul_neg, fl32_neg]
  unfold C_arg_binary32
  rw [hQ]
  exact fl32_nonneg _ (by linarith)

end RoundingOrder

section DeterminantSign

/-- The relative error of the rounding to binary32 is at most `2^-24`. -/
theorem fl32_rel (x : ℚ) : |fl32 x - x| ≤ |x| / 16777216 := by
  by_cases hx : x = 0
  · rw [hx, fl32_zero]
    norm_num
  · have h1 := (fl32_near x hx).2
    have h2 := (binade_spec x hx).1
    have e : (2 : ℚ) ^ (binade x - 24) = 2 ^ binade x / 16777216 := by
      rw [zpow_sub₀ (by norm_num)]
      norm_num
    rw [e] at h1
    exact le_trans h1 (div_le_div_of_nonneg_right h2 (by norm_num))

theorem fl32_pos (x : ℚ) (hx : 0 < x) : 0 < fl32 x :=
  lt_of_lt_of_le (by positivity) (fl32_mem_binade x hx).1

/-- In `float` arithmetic the determinant the code computes is positive for `0 ≤ Cm ≤ 2^20`. -/
theorem C_arg_binary32_pos (Cm : ℚ) (h0 : 0 ≤ Cm) (h1 : Cm ≤ 2 ^ 20) :
    0 < C_arg_binary32 reference Cm := by
  have a1 : fl32 (fl32 (reference : DeviceParameters ℚ).CL +
      fl32 (reference : DeviceParameters ℚ).Cg1) = 7549747 / 4194304 := by decide!
  have a2 : fl32 (fl32 (reference : DeviceParameters ℚ).CR +
      fl32 (reference : DeviceParameters ℚ).Cg2) = 13421773 / 8388608 := by decide!
  have h1' : Cm ≤ 1048576 := by norm_num at h1; exact h1
  -- the two sums
  obtain ⟨r1, -⟩ := abs_le.1 (fl32_rel (7549747 / 4194304 + Cm))
  obtain ⟨r2, -⟩ := abs_le.1 (fl32_rel (13421773 / 8388608 + Cm))
  rw [abs_of_nonneg (by linarith)] at r1 r2
  have c1 : (179 / 100 + Cm) * (16777215 / 16777216) ≤ C1_binary32 reference Cm := by
    rw [C1_binary32, a1]
    generalize fl32 (7549747 / 4194304 + Cm) = z at r1 ⊢
    linarith
  have c2 : (159 / 100 + Cm) * (16777215 / 16777216) ≤ C2_binary32 reference Cm := by
    rw [C2_binary32, a2]
    generalize fl32 (13421773 / 8388608 + Cm) = z at r2 ⊢
    linarith
  have hQ : Cm_carre_binary32 Cm = -fl32 (Cm * Cm) := by
    rw [Cm_carre_binary32, mul_neg, fl32_neg]
  unfold C_arg_binary32
  rw [hQ]
  simp only []
  generalize C1_binary32 reference Cm = x1 at c1 ⊢
  generalize C2_binary32 reference Cm = x2 at c2 ⊢
  have x1pos : 0 < x1 := lt_of_lt_of_le (by positivity) c1
  have x2pos : 0 < x2 := lt_of_lt_of_le (by positivity) c2
  -- the two products
  have hprod : (179 / 100 + Cm) * (16777215 / 16777216) * ((159 / 100 + Cm) * (16777215 / 16777216)) ≤
      x1 * x2 := mul_le_mul c1 c2 (by positivity) x1pos.le
  obtain ⟨r3, -⟩ := abs_le.1 (fl32_rel (x1 * x2))
  rw [abs_of_pos (mul_pos x1pos x2pos)] at r3
  obtain ⟨-, r4⟩ := abs_le.1 (fl32_rel (Cm * Cm))
  rw [abs_of_nonneg (mul_nonneg h0 h0)] at r4
  refine fl32_pos _ ?_
  have hsq : Cm * Cm ≤ 1048576 * Cm := mul_le_mul_of_nonneg_right h1' h0
  have e : (179 / 100 + Cm) * (16777215 / 16777216) * ((159 / 100 + Cm) * (16777215 / 16777216)) =
      (16777215 / 16777216) ^ 2 * (Cm * Cm) + (16777215 / 16777216) ^ 2 * (169 / 50) * Cm +
        (16777215 / 16777216) ^ 2 * (28461 / 10000) := by ring
  rw [e] at hprod
  generalize Cm * Cm = t at hprod r4 hsq ⊢
  generalize x1 * x2 = y at hprod r3 ⊢
  norm_num at hprod
  linarith

end DeterminantSign

section Binary32Loops

theorem foldl_Inner_Loop_body_binary32 (w : ℕ → ℕ → ℚ) (N2 : ℕ) (l : List ℕ)
    (s : LoopState ℚ) :
    l.foldl (Inner_Loop_body_binary32 w N2) s =
      { sum_Z := Function.update s.sum_Z N2 (rowZ_binary32 w N2 l (s.sum_Z N2))
        sum_moy := Function.update s.sum_moy N2 (rowM_binary32 w N2 l (s.sum_moy N2))
        sumsum_Z := s.sumsum_Z
        sumsum_moy := s.sumsum_moy
        evals := s.evals ++ l.map fun N1 => (N1, N2) } := by
  induction l generalizing s with
  | nil => simp [rowZ_binary32, rowM_binary32]
  | cons a l ih =>
    rw [List.foldl_cons, ih]
    simp [Inner_Loop_body_binary32, rowZ_binary32, rowM_binary32]

theorem Outer_Loop_binary32_eq (n : ℕ) (w : ℕ → ℕ → ℚ) :
    Outer_Loop_binary32 n w =
      (List.range (n + 1)).foldl (Outer_Loop_body_binary32 n w) LoopState.init := rfl

theorem Outer_Loop_body_binary32_eq (n : ℕ) (w : ℕ → ℕ → ℚ) (s : LoopState ℚ) (N2 : ℕ) :
    Outer_Loop_body_binary32 n w s N2 =
      { sum_Z := Function.update s.sum_Z N2
          (rowZ_binary32 w N2 (List.range (n + 1)) (s.sum_Z N2))
        sum_moy := Function.update s.sum_moy N2
          (rowM_binary32 w N2 (List.range (n + 1)) (s.sum_moy N2))
        sumsum_Z := fl32 (s.sumsum_Z + rowZ_binary32 w N2 (List.range (n + 1)) (s.sum_Z N2))
        sumsum_moy := fl32 (s.sumsum_moy +
          rowM_binary32 w N2 (List.range (n + 1)) (s.sum_moy N2))
        evals := s.evals ++ (List.range (n + 1)).map fun N1 => (N1, N2) } := by
  simp [Outer_Loop_body_binary32, foldl_Inner_Loop_body_binary32]

theorem binade_unique (x : ℚ) (k : ℤ) (h1 : (2 : ℚ) ^ k ≤ |x|) (h2 : |x| < (2 : ℚ) ^ (k + 1)) :
    binade x = k := by
  have hx : x ≠ 0 := by
    intro h
    rw [h, abs_zero] at h1
    exact absurd h1 (not_le.2 (by positivity))
  obtain ⟨a, b⟩ := binade_spec x hx
  have l1 : (2 : ℚ) ^ k < 2 ^ (binade x + 1) := lt_of_le_of_lt h1 b
  have l2 : (2 : ℚ) ^ binade x < 2 ^ (k + 1) := lt_of_le_of_lt a h2
  have m1 := (zpow_lt_zpow_iff_right₀ (by norm_num : (1 : ℚ) < 2)).1 l1
  have m2 := (zpow_lt_zpow_iff_right₀ (by norm_num : (1 : ℚ) < 2)).1 l2
  omega

/-- Rounding to binary32 commutes with the multiplication by 2 (no exponent bound). -/
theorem fl32_mul_two (x : ℚ) : fl32 (2 * x) = 2 * fl32 x := by
  by_cases hx : x = 0
  · simp [hx, fl32_zero]
  · have h2 : 2 * x ≠ 0 := mul_ne_zero (by norm_num) hx
    obtain ⟨a, b⟩ := binade_spec x hx
    have e1 : ∀ k : ℤ, (2 : ℚ) ^ (k + 1) = 2 * 2 ^ k := by
      intro k
      rw [zpow_add₀ (by norm_num)]
      norm_num
      ring
    have hb : binade (2 * x) = binade x + 1 := by
      apply binade_unique
      · rw [abs_mul, abs_of_pos (by norm_num : (0 : ℚ) < 2), e1]
        linarith
      · rw [abs_mul, abs_of_pos (by norm_num : (0 : ℚ) < 2), e1 (binade x + 1)]
        linarith
    rw [(fl32_near _ h2).1, (fl32_near x hx).1, hb,
      show binade x + 1 - 23 = binade x - 23 + 1 by ring, e1]
    have hu : (0 : ℚ) < 2 ^ (binade x - 23) := by positivity
    rw [show 2 * x / (2 * 2 ^ (binade x - 23)) = x / 2 ^ (binade x - 23) by
      field_simp
      ring]
    ring

/-- Rounding to binary32 commutes with the multiplication by 8 (no exponent bound). -/
theorem fl32_mul_eight (x : ℚ) : fl32 (8 * x) = 8 * fl32 x := by
  rw [show 8 * x = 2 * (2 * (2 * x)) by ring, fl32_mul_two, fl32_mul_two, fl32_mul_two]
  ring

theorem fl32_eq_zero_iff (x : ℚ) : fl32 x = 0 ↔ x = 0 := by
  constructor
  · intro h
    by_contra hx
    rcases lt_or_gt_of_ne hx with hn | hp
    · have := fl32_pos (-x) (by linarith)
      rw [fl32_neg, h] at this
      norm_num at this
    · have := fl32_pos x hp
      rw [h] at this
      exact lt_irrefl _ this
  · intro h
    rw [h, fl32_zero]

theorem fl32_add_eq_zero_iff (a b : ℚ) (ha : 0 ≤ a) (hb : 0 ≤ b) :
    fl32 (a + b) = 0 ↔ a = 0 ∧ b = 0 := by
  rw [fl32_eq_zero_iff]
  constructor
  · intro h
    constructor <;> linarith
  · rintro ⟨rfl, rfl⟩
    norm_num

theorem rowZ_binary32_nonneg (w : ℕ → ℕ → ℚ) (hw : ∀ i j, 0 ≤ w i j) (N2 : ℕ) (l : List ℕ)
    (z : ℚ) (hz : 0 ≤ z) :
    0 ≤ rowZ_binary32 w N2 l z ∧
    (rowZ_binary32 w N2 l z = 0 ↔ z = 0 ∧ ∀ N1 ∈ l, w N1 N2 = 0) := by
  induction l generalizing z with
  | nil => simp [rowZ_binary32, hz]
  | cons a l ih =>
    have h1 : 0 ≤ fl32 (z + w a N2) := fl32_nonneg _ (add_nonneg hz (hw a N2))
    obtain ⟨i1, i2⟩ := ih (fl32 (z + w a N2)) h1
    have e : rowZ_binary32 w N2 (a :: l) z = rowZ_binary32 w N2 l (fl32 (z + w a N2)) := rfl
    rw [e]
    refine ⟨i1, ?_⟩
    rw [i2, fl32_add_eq_zero_iff _ _ hz (hw a N2)]
    simp only [List.mem_cons, forall_eq_or_imp]
    tauto

theorem rowM_binary32_le (w : ℕ → ℕ → ℚ) (hw : ∀ i j, 0 ≤ w i j)
    (hfl : ∀ i j, fl32 (w i j) = w i j) (N2 : ℕ) (l : List ℕ) (hl : ∀ N1 ∈ l, N1 + N2 ≤ 8)
    (z m : ℚ) (hm : 0 ≤ m) (hmz : m ≤ 8 * z) :
    0 ≤ rowM_binary32 w N2 l m ∧ rowM_binary32 w N2 l m ≤ 8 * rowZ_binary32 w N2 l z := by
  induction l generalizing z m with
  | nil => exact ⟨hm, hmz⟩
  | cons a l ih =>
    have ha : a + N2 ≤ 8 := hl a (List.mem_cons_self _ _)
    have hc : (((a + N2 : ℕ) : ℚ)) ≤ 8 := by exact_mod_cast ha
    have hc0 : (0 : ℚ) ≤ ((a + N2 : ℕ) : ℚ) := Nat.cast_nonneg _
    have t0 : 0 ≤ fl32 (((a + N2 : ℕ) : ℚ) * w a N2) :=
      fl32_nonneg _ (mul_nonneg hc0 (hw a N2))
    have t8 : fl32 (((a + N2 : ℕ) : ℚ) * w a N2) ≤ 8 * w a N2 := by
      have := fl32_mono (mul_le_mul_of_nonneg_right hc (hw a N2))
      rwa [fl32_mul_eight, hfl] at this
    have h1 : 0 ≤ fl32 (m + fl32 (((a + N2 : ℕ) : ℚ) * w a N2)) :=
      fl32_nonneg _ (add_nonneg hm t0)
    have h2 : fl32 (m + fl32 (((a + N2 : ℕ) : ℚ) * w a N2)) ≤ 8 * fl32 (z + w a N2) := by
      rw [← fl32_mul_eight]
      exact fl32_mono (by linarith)
    exact ih (fun N1 h => hl N1 (List.mem_cons_of_mem _ h)) _ _ h1 h2

/-- The totals of the loops in `float` arithmetic, for weights that are not negative:
`sumsum_Z` is not negative and is 0 exactly when every weight of the rows of `l` is 0. -/
theorem foldl_Outer_binary32_Z (n : ℕ) (w : ℕ → ℕ → ℚ) (hw : ∀ i j, 0 ≤ w i j) (l : List ℕ)
    (hl : l.Nodup) (s : LoopState ℚ) (h0 : ∀ i ∈ l, s.sum_Z i = 0) (hs : 0 ≤ s.sumsum_Z) :
    0 ≤ (l.foldl (Outer_Loop_body_binary32 n w) s).sumsum_Z ∧
    ((l.foldl (Outer_Loop_body_binary32 n w) s).sumsum_Z = 0 ↔
      s.sumsum_Z = 0 ∧ ∀ N2 ∈ l, ∀ N1 ∈ List.range (n + 1), w N1 N2 = 0) := by
  induction l generalizing s with
  | nil => simp [hs]
  | cons a l ih =>
    rw [List.nodup_cons] at hl
    rw [List.foldl_cons]
    have hne : ∀ i ∈ l, i ≠ a := fun i hi h => hl.1 (h ▸ hi)
    have hZa := h0 a (List.mem_cons_self _ _)
    obtain ⟨r1, r2⟩ := rowZ_binary32_nonneg w hw a (List.range (n + 1)) 0 le_rfl
    have hs1 : 0 ≤ fl32 (s.sumsum_Z + rowZ_binary32 w a (List.range (n + 1)) 0) :=
      fl32_nonneg _ (add_nonneg hs r1)
    obtain ⟨i1, i2⟩ := ih hl.2 (Outer_Loop_body_binary32 n w s a)
      (fun i hi => by
        simp [Outer_Loop_body_binary32_eq, Function.update_noteq (hne i hi),
          h0 i (List.mem_cons_of_mem _ hi)])
      (by simpa [Outer_Loop_body_binary32_eq, hZa] using hs1)
    refine ⟨i1, ?_⟩
    rw [i2]
    simp only [Outer_Loop_body_binary32_eq, hZa,
      fl32_add_eq_zero_iff _ _ hs r1, r2, List.mem_cons, forall_eq_or_imp, true_and]
    tauto

/-- The totals of the loops in `float` arithmetic, for weights that are `float` numbers and
not negative, when `N1 + N2 ≤ 8` in the loops: `0 ≤ sumsum_moy ≤ 8 * sumsum_Z`. -/
theorem foldl_Outer_binary32_M (n : ℕ) (hn : n ≤ 4) (w : ℕ → ℕ → ℚ) (hw : ∀ i j, 0 ≤ w i j)
    (hfl : ∀ i j, fl32 (w i j) = w i j) (l : List ℕ) (hl4 : ∀ i ∈ l, i ≤ 4)
    (hl : l.Nodup) (s : LoopState ℚ) (h0 : ∀ i ∈ l, s.sum_Z i = 0)
    (h0M : ∀ i ∈ l, s.sum_moy i = 0) (hs : 0 ≤ s.sumsum_moy)
    (hsz : s.sumsum_moy ≤ 8 * s.sumsum_Z) :
    0 ≤ (l.foldl (Outer_Loop_body_binary32 n w) s).sumsum_moy ∧
    (l.foldl (Outer_Loop_body_binary32 n w) s).sumsum_moy ≤
      8 * (l.foldl (Outer_Loop_body_binary32 n w) s).sumsum_Z := by
  induction l generalizing s with
  | nil => exact ⟨hs, hsz⟩
  | cons a l ih =>
    rw [List.nodup_cons] at hl
    simp only [List.foldl_cons]
    have hne : ∀ i ∈ l, i ≠ a := fun i hi h => hl.1 (h ▸ hi)
    have hZa := h0 a (List.mem_cons_self _ _)
    have hMa := h0M a (List.mem_cons_self _ _)
    have ha4 : a ≤ 4 := hl4 a (List.mem_cons_self _ _)
    obtain ⟨r1, r2⟩ := rowM_binary32_le w hw hfl a (List.range (n + 1))
      (fun N1 h => by
        have := List.mem_range.1 h
        omega) 0 0 le_rfl (by norm_num)
    have m1 : 0 ≤ fl32 (s.sumsum_moy + rowM_binary32 w a (List.range (n + 1)) 0) :=
      fl32_nonneg _ (add_nonneg hs r1)
    have m2 : fl32 (s.sumsum_moy + rowM_binary32 w a (List.range (n + 1)) 0) ≤
        8 * fl32 (s.sumsum_Z + rowZ_binary32 w a (List.range (n + 1)) 0) := by
      rw [← fl32_mul_eight]
      exact fl32_mono (by linarith)
    exact ih (fun i hi => hl4 i (List.mem_cons_of_mem _ hi)) hl.2
      (Outer_Loop_body_binary32 n w s a)
      (fun i hi => by
        simp [Outer_Loop_body_binary32_eq, Function.update_noteq (hne i hi),
          h0 i (List.mem_cons_of_mem _ hi)])
      (fun i hi => by
        simp [Outer_Loop_body_binary32_eq, Function.update_noteq (hne i hi),
          h0M i (List.mem_cons_of_mem _ hi)])
      (by simpa [Outer_Loop_body_binary32_eq, hMa] using m1)
      (by simpa [Outer_Loop_body_binary32_eq, hMa, hZa] using m2)

theorem Outer_Loop_binary32_Z (n : ℕ) (w : ℕ → ℕ → ℚ) (hw : ∀ i j, 0 ≤ w i j) :
    0 ≤ (Outer_Loop_binary32 n w).sumsum_Z ∧
    ((Outer_Loop_binary32 n w).sumsum_Z = 0 ↔
      ∀ N2 ∈ List.range (n + 1), ∀ N1 ∈ List.range (n + 1), w N1 N2 = 0) := by
  have h := foldl_Outer_binary32_Z n w hw (List.range (n + 1)) (List.nodup_range _)
    LoopState.init (fun _ _ => rfl) le_rfl
  rw [← Outer_Loop_binary32_eq] at h
  refine ⟨h.1, ?_⟩
  have h2 := h.2
  simp only [LoopState.init, true_and] at h2
  exact h2

theorem Outer_Loop_binary32_M (w : ℕ → ℕ → ℚ) (hw : ∀ i j, 0 ≤ w i j)
    (hfl : ∀ i j, fl32 (w i j) = w i j) :
    0 ≤ (Outer_Loop_binary32 4 w).sumsum_moy ∧
    (Outer_Loop_binary32 4 w).sumsum_moy ≤ 8 * (Outer_Loop_binary32 4 w).sumsum_Z := by
  rw [Outer_Loop_binary32_eq]
  exact foldl_Outer_binary32_M 4 le_rfl w hw hfl (List.range (4 + 1))
    (fun i hi => by
      have := List.mem_range.1 hi
      omega)
    (List.nodup_range _) LoopState.init (fun _ _ => rfl) (fun _ _ => rfl) le_rfl
    (by simp [LoopState.init])

end Binary32Loops

section Binary32Finite

/-- Rounding to binary32 commutes with the multiplication by a power of 2. -/
theorem fl32_two_pow_mul (k : ℕ) (x : ℚ) : fl32 (2 ^ k * x) = 2 ^ k * fl32 x := by
  induction k with
  | zero => simp
  | succ k ih =>
    rw [pow_succ, show (2 : ℚ) ^ k * 2 * x = 2 * (2 ^ k * x) by ring, fl32_mul_two, ih]
    ring

/-- The multiples `a * 2^100` with `a ≤ 32` are binary32 numbers (no exponent bound). -/
theorem fl32_small_mul (a : ℕ) (ha : a ≤ 32) : fl32 ((a : ℚ) * 2 ^ 100) = (a : ℚ) * 2 ^ 100 := by
  have h : fl32 (a : ℚ) = (a : ℚ) := by
    interval_cases a <;> decide!
  rw [mul_comm, fl32_two_pow_mul, h]

theorem rowZ_binary32_le (w : ℕ → ℕ → ℚ) (hfin : ∀ i j, w i j ≤ 2 ^ 100) (N2 : ℕ)
    (l : List ℕ) (a : ℕ) (ha : a + l.length ≤ 32) (z : ℚ) (hz : z ≤ (a : ℚ) * 2 ^ 100) :
    rowZ_binary32 w N2 l z ≤ ((a + l.length : ℕ) : ℚ) * 2 ^ 100 := by
  induction l generalizing a z with
  | nil => simpa using hz
  | cons b l ih =>
    have e : rowZ_binary32 w N2 (b :: l) z = rowZ_binary32 w N2 l (fl32 (z + w b N2)) := rfl
    rw [e]
    simp only [List.length_cons] at ha ⊢
    have h1 : fl32 (z + w b N2) ≤ ((a + 1 : ℕ) : ℚ) * 2 ^ 100 := by
      have := fl32_mono (show z + w b N2 ≤ ((a + 1 : ℕ) : ℚ) * 2 ^ 100 by
        push_cast
        linarith [hfin b N2])
      rwa [fl32_small_mul _ (by omega)] at this
    have := ih (a + 1) (by omega) _ h1
    rwa [show a + 1 + l.length = a + (l.length + 1) by omega] at this

/-- For weights that are at most `2^100`, the partition function accumulated in `float`
arithmetic over `[0, 4]^2` is at most `25 * 2^100`, below the largest `float`. -/
theorem foldl_Outer_binary32_Z_le (w : ℕ → ℕ → ℚ) (hfin : ∀ i j, w i j ≤ 2 ^ 100)
    (l : List ℕ) (hl : l.Nodup) (a : ℕ) (ha : a + 5 * l.length ≤ 32) (s : LoopState ℚ)
    (h0 : ∀ i ∈ l, s.sum_Z i = 0) (hs : s.sumsum_Z ≤ (a : ℚ) * 2 ^ 100) :
    (l.foldl (Outer_Loop_body_binary32 4 w) s).sumsum_Z ≤
      ((a + 5 * l.length : ℕ) : ℚ) * 2 ^ 100 := by
  induction l generalizing a s with
  | nil => simpa using hs
  | cons b l ih =>
    rw [List.nodup_cons] at hl
    rw [List.foldl_cons]
    simp only [List.length_cons] at ha ⊢
    have hne : ∀ i ∈ l, i ≠ b := fun i hi h => hl.1 (h ▸ hi)
    have hZb := h0 b (List.mem_cons_self _ _)
    have r := rowZ_binary32_le w hfin b (List.range (4 + 1)) 0 (by simp) 0 (by simp)
    have r5 : rowZ_binary32 w b (List.range (4 + 1)) 0 ≤ 5 * 2 ^ 100 := by
      simpa using r
    have h1 : fl32 (s.sumsum_Z + rowZ_binary32 w b (List.range (4 + 1)) 0) ≤
        ((a + 5 : ℕ) : ℚ) * 2 ^ 100 := by
      have := fl32_mono (show s.sumsum_Z + rowZ_binary32 w b (List.range (4 + 1)) 0 ≤
          ((a + 5 : ℕ) : ℚ) * 2 ^ 100 by
        push_cast
        linarith)
      rwa [fl32_small_mul _ (by omega)] at this
    have := ih hl.2 (a + 5) (by omega) (Outer_Loop_body_binary32 4 w s b)
      (fun i hi => by
        simp [Outer_Loop_body_binary32_eq, Function.update_noteq (hne i hi),
          h0 i (List.mem_cons_of_mem _ hi)])
      (by simpa [Outer_Loop_body_binary32_eq, hZb] using h1)
    rwa [show a + 5 + 5 * l.length = a + 5 * (l.length + 1) by omega] at this

theorem Outer_Loop_binary32_Z_le (w : ℕ → ℕ → ℚ) (hfin : ∀ i j, w i j ≤ 2 ^ 100) :
    (Outer_Loop_binary32 4 w).sumsum_Z ≤ 25 * 2 ^ 100 := by
  have h := foldl_Outer_binary32_Z_le w hfin (List.range (4 + 1)) (List.nodup_range _) 0
    (by simp) LoopState.init (fun _ _ => rfl) (by simp [LoopState.init])
  rw [← Outer_Loop_binary32_eq] at h
  simpa using h

end Binary32Finite

section Binary32Return

theorem fl32_eight : fl32 8 = 8 ∧ fl32 32768 = 32768 ∧ fl32 1 = 1 := by
  decide!

/-- For `float` weights that are not negative, the value the kernel rounds in `float`
arithmetic lies in `[0, 32768]`, and the occupation before the scaling in `[0, 8]`. -/
theorem rounded_nb_electrons_binary32_mem (w : ℕ → ℕ → ℚ) (hw : ∀ N1 N2, 0 ≤ w N1 N2)
    (hfl : ∀ N1 N2, fl32 (w N1 N2) = w N1 N2) :
    0 ≤ fl32 ((Outer_Loop_binary32 4 w).sumsum_moy / (Outer_Loop_binary32 4 w).sumsum_Z) ∧
    fl32 ((Outer_Loop_binary32 4 w).sumsum_moy / (Outer_Loop_binary32 4 w).sumsum_Z) ≤ 8 ∧
    0 ≤ rounded_nb_electrons_binary32 4 w ∧ rounded_nb_electrons_binary32 4 w ≤ 32768 := by
  obtain ⟨hZ0, -⟩ := Outer_Loop_binary32_Z 4 w hw
  obtain ⟨hM0, hM8⟩ := Outer_Loop_binary32_M w hw hfl
  have hq0 : 0 ≤ (Outer_Loop_binary32 4 w).sumsum_moy / (Outer_Loop_binary32 4 w).sumsum_Z :=
    div_nonneg hM0 hZ0
  have hq8 : (Outer_Loop_binary32 4 w).sumsum_moy / (Outer_Loop_binary32 4 w).sumsum_Z ≤ 8 := by
    rcases hZ0.eq_or_lt with h0 | hpos
    · rw [← h0, div_zero]
      norm_num
    · rw [div_le_iff₀ hpos]
      exact hM8
  have a0 := fl32_nonneg _ hq0
  have a8 : fl32 ((Outer_Loop_binary32 4 w).sumsum_moy /
      (Outer_Loop_binary32 4 w).sumsum_Z) ≤ 8 := by
    have := fl32_mono hq8
    rwa [fl32_eight.1] at this
  refine ⟨a0, a8, ?_⟩
  unfold rounded_nb_electrons_binary32
  simp only []
  split_ifs with hZ
  · exact ⟨le_rfl, by norm_num⟩
  · rw [OUT_factor_eq]
    generalize fl32 ((Outer_Loop_binary32 4 w).sumsum_moy /
      (Outer_Loop_binary32 4 w).sumsum_Z) = t at a0 a8
    have b0 : 0 ≤ fl32 (t * 4096) := fl32_nonneg _ (by positivity)
    have b8 : fl32 (t * 4096) ≤ 32768 := by
      have := fl32_mono (show t * 4096 ≤ 32768 by linarith)
      rwa [fl32_eight.2.1] at this
    constructor
    · have := hls_round_mono b0
      rwa [show (0 : ℚ) = ((0 : ℤ) : ℚ) by norm_num, hls_round_intCast] at this
    · have := hls_round_mono b8
      rwa [show (32768 : ℚ) = ((32768 : ℤ) : ℚ) by norm_num, hls_round_intCast] at this

theorem single_weight_nonneg (a b : ℕ) (v : ℚ) (hv : 0 ≤ v) (N1 N2 : ℕ) :
    0 ≤ single_weight a b v N1 N2 := by
  unfold single_weight
  split_ifs
  · exact hv
  · exact le_rfl

theorem single_weight_le (a b : ℕ) (v c : ℚ) (hv : v ≤ c) (hc : 0 ≤ c) (N1 N2 : ℕ) :
    single_weight a b v N1 N2 ≤ c := by
  unfold single_weight
  split_ifs
  · exact hv
  · exact hc

theorem single_weight_fl32 (a b : ℕ) (v : ℚ) (hv : fl32 v = v) (N1 N2 : ℕ) :
    fl32 (single_weight a b v N1 N2) = single_weight a b v N1 N2 := by
  unfold single_weight
  split_ifs
  · exact hv
  · exact fl32_zero

end Binary32Return

section Param3Binary32

end Param3Binary32

/-- C16, as the code has it: with the header's constants, the determinant of lines 16 to 22
as the code computes it in `float` arithmetic is positive for every `Cm` with
`0 ≤ Cm ≤ 2^20`, and not negative for every `float` `Cm` with `0 ≤ Cm ≤ 2^60`.  As a formula
of exact arithmetic on the exact decimals it is
`(1.8 + Cm)*(1.6 + Cm) - Cm^2 = 2.88 + 3.4*Cm` for every `Cm`, positive for every `Cm ≥ 0`
and zero exactly when `Cm = -72/85`. -/
theorem reference_determinant {K : Type} [LinearOrderedField K] (Cm : K) :
    (∀ c : ℚ, 0 ≤ c → c ≤ 2 ^ 20 → 0 < C_arg_binary32 reference c) ∧
    (∀ c : ℚ, 0 ≤ c → c ≤ 2 ^ 60 → fl32 c = c → 0 ≤ C_arg_binary32 reference c) ∧
    C_arg (reference : DeviceParameters K) Cm = (1.8 + Cm) * (1.6 + Cm) - Cm ^ 2 ∧
    C_arg (reference : DeviceParameters K) Cm = 2.88 + 3.4 * Cm ∧
    Cdet (reference : DeviceParameters K) Cm = 2.88 + 3.4 * Cm ∧
    (0 ≤ Cm → 0 < C_arg (reference : DeviceParameters K) Cm) ∧
    (C_arg (reference : DeviceParameters K) Cm = 0 ↔ Cm = -72 / 85) := by
  have h := reference_C_arg_eq Cm
  refine ⟨fun c h0 h1 => C_arg_binary32_pos c h0 h1,
    fun c h0 _ hfl => C_arg_binary32_nonneg c h0 hfl, ?_, h, ?_, ?_, ?_⟩
  · rw [h]; ring
  · rw [← C_arg_eq_Cdet, h]
  · intro hCm
    rw [h]
    linarith
  · rw [h]
    constructor
    · intro h0
      linarith
    · intro h0
      rw [h0]
      norm_num

/-- C16, refuted as stated: in binary32 the determinant the code computes at `Cm = 2^25 ≥ 0`
is exactly 0 (`C1` and `C2` round to `2^25`), neither positive nor `2.88 + 3.4*Cm`; and
`-72/85` is not a `float`: at the nearest one, `-14211289/2^24`, the computed determinant is
`-2^-24`, not 0. -/
theorem reference_determinant_binary32_counterexample :
    (0 : ℚ) ≤ 2 ^ 25 ∧ fl32 (2 ^ 25) = 2 ^ 25 ∧ C_arg_binary32 reference (2 ^ 25) = 0 ∧
    ¬ (0 < C_arg_binary32 reference (2 ^ 25)) ∧
    C_arg_binary32 reference (2 ^ 25) ≠ 2.88 + 3.4 * 2 ^ 25 ∧
    fl32 (-72 / 85) = -14211289 / 16777216 ∧ fl32 (-72 / 85) ≠ -72 / 85 ∧
    C_arg_binary32 reference (fl32 (-72 / 85)) = -1 / 16777216 := by
  decide!

/-- C7, refuted as stated: in `float` arithmetic with the header's constants, at `V1 = 18548`,
`V2 = 25304` and the `float` `Cm = -1776411/2^21` (the determinant the code computes is
`3 * 2^-24`), the energy of `(4, 4)` rounds to 0, so its argument is 0, and the arguments of
the other 24 configurations are below `-104`.  For every exponential that returns 0 below
`-104` and 1 at 0, `sumsum_Z = 1`, `sumsum_moy = 8`, the kernel rounds `8 * 4096 = 32768`,
which is above the largest `short`, 32767: no `short` is the value the kernel rounds, and with
the conversion of the embedding (the low 16 bits) the code is `-32768`, decoded `-8`. -/
theorem range_bound_binary32_counterexample :
    fl32 (-1776411 / 2097152) = -1776411 / 2097152 ∧
    C_arg_binary32 reference (-1776411 / 2097152) = 3 / 16777216 ∧
    arg_binary32 reference 18548 25304 (-1776411 / 2097152) 4 4 = 0 ∧
    (∀ N1 ∈ List.range 5, ∀ N2 ∈ List.range 5, ¬ (N1 = 4 ∧ N2 = 4) →
      arg_binary32 reference 18548 25304 (-1776411 / 2097152) N1 N2 < -104) ∧
    ∀ expf : ℚ → ℚ, (∀ x, x < -104 → expf x = 0) → expf 0 = 1 →
      rounded_nb_electrons_binary32 4 (fun N1 N2 =>
        expf (arg_binary32 reference 18548 25304 (-1776411 / 2097152) N1 N2)) = 32768 ∧
      quantum_dot_simulator_binary32 reference expf 18548 25304 (-1776411 / 2097152) =
        -32768 ∧
      (decode_occupation (quantum_dot_simulator_binary32 reference expf 18548 25304
        (-1776411 / 2097152)) : ℚ) = -8 ∧
      ¬ ((0 : ℚ) ≤ decode_occupation (quantum_dot_simulator_binary32 reference expf 18548
        25304 (-1776411 / 2097152))) := by
  refine ⟨by decide!, by decide!, arg_binary32_top.1, arg_binary32_top.2, ?_⟩
  intro expf h0 h1
  have hw := weights_binary32_single reference expf h0 h1 18548 25304 (-1776411 / 2097152) 4 4
    arg_binary32_top.1 arg_binary32_top.2
  have hr : rounded_nb_electrons_binary32 4 (fun N1 N2 =>
      expf (arg_binary32 reference 18548 25304 (-1776411 / 2097152) N1 N2)) = 32768 := by
    rw [rounded_nb_electrons_binary32_congr 4 _ _ hw, Outer_Loop_binary32_top.2.2]
  have hs : quantum_dot_simulator_binary32 reference expf 18548 25304 (-1776411 / 2097152) =
      -32768 := by
    have hN : (reference : DeviceParameters ℚ).N_max = 4 := rfl
    simp only [quantum_dot_simulator_binary32, hN, hr]
    rfl
  have hd : (decode_occupation (quantum_dot_simulator_binary32 reference expf 18548 25304
      (-1776411 / 2097152)) : ℚ) = -8 := by
    rw [hs, decode_occupation, OUT_factor_eq]
    norm_num
  refine ⟨hr, hs, hd, ?_⟩
  rw [hd]
  norm_num

/-- C8, refuted as stated: in `float` arithmetic with `Cg1 = Cg2 = 3` and `CL = CR = 0.4`, at
the `float` `Cm = -14260633/2^23`, for `V1 = 30447`, `V2 = 19523` the energy of `(4, 2)` rounds
to 0 and the other arguments are below `-104`, while for the exchanged codes all 25 arguments
are below `-104`.  For every exponential that returns 0 below `-104` and 1 at 0 the kernel
returns `6 * 4096 = 24576` for the first pair and 0 for the exchanged pair. -/
theorem exchange_symmetry_binary32_counterexample :
    (equal_gates : DeviceParameters ℚ).Cg1 = (equal_gates : DeviceParameters ℚ).Cg2 ∧
    (equal_gates : DeviceParameters ℚ).CL = (equal_gates : DeviceParameters ℚ).CR ∧
    fl32 (-14260633 / 8388608) = -14260633 / 8388608 ∧
    arg_binary32 equal_gates 30447 19523 (-14260633 / 8388608) 4 2 = 0 ∧
    (∀ N1 ∈ List.range 5, ∀ N2 ∈ List.range 5, ¬ (N1 = 4 ∧ N2 = 2) →
      arg_binary32 equal_gates 30447 19523 (-14260633 / 8388608) N1 N2 < -104) ∧
    (∀ N1 ∈ List.range 5, ∀ N2 ∈ List.range 5,
      arg_binary32 equal_gates 19523 30447 (-14260633 / 8388608) N1 N2 < -104) ∧
    ∀ expf : ℚ → ℚ, (∀ x, x < -104 → expf x = 0) → expf 0 = 1 →
      quantum_dot_simulator_binary32 equal_gates expf 30447 19523 (-14260633 / 8388608) =
        24576 ∧
      quantum_dot_simulator_binary32 equal_gates expf 19523 30447 (-14260633 / 8388608) = 0 ∧
      quantum_dot_simulator_binary32 equal_gates expf 30447 19523 (-14260633 / 8388608) ≠
        quantum_dot_simulator_binary32 equal_gates expf 19523 30447 (-14260633 / 8388608) := by
  refine ⟨rfl, rfl, by decide!, arg_binary32_exchange.1, arg_binary32_exchange.2.1,
    arg_binary32_exchange.2.2, ?_⟩
  intro expf h0 h1
  have hN : (equal_gates : DeviceParameters ℚ).N_max = 4 := rfl
  have hw := weights_binary32_single equal_gates expf h0 h1 30447 19523 (-14260633 / 8388608)
    4 2 arg_binary32_exchange.1 arg_binary32_exchange.2.1
  have hs1 : quantum_dot_simulator_binary32 equal_gates expf 30447 19523
      (-14260633 / 8388608) = 24576 := by
    simp only [quantum_dot_simulator_binary32, hN]
    rw [rounded_nb_electrons_binary32_congr 4 _ _ hw, rounded_nb_electrons_binary32_four_two]
    rfl
  have hs2 := (quantum_dot_simulator_binary32_zero expf h0 equal_gates hN 19523 30447
    (-14260633 / 8388608) arg_binary32_exchange.2.2).2
  refine ⟨hs1, hs2, ?_⟩
  rw [hs1, hs2]
  norm_num

/-- C7, as the code has it: with `N_max = 4`, for every table of 25 `float` weights that are
not negative and at most `2^100`, in `float` arithmetic the totals stay below the largest
`float` (`sumsum_Z ≤ 25 * 2^100`, `sumsum_moy ≤ 8 * sumsum_Z`) and the value the kernel
rounds, `round(4096 * M/Z)` or 0 when `sumsum_Z == 0`, lies in `[0, 32768]`; when it is not
32768 it is a `short`, the kernel returns it and the returned code decoded by dividing by
`OUT_factor = 4096` lies in `[0, 8)`, inside `[0, 2 * N_max]`.  Nothing is said of the
conversion of 32768, which is not a `short`. -/
theorem range_bound_without_overflow (w : ℕ → ℕ → ℚ) (hw : ∀ N1 N2, 0 ≤ w N1 N2)
    (hfin : ∀ N1 N2, w N1 N2 ≤ 2 ^ 100) (hfl : ∀ N1 N2, fl32 (w N1 N2) = w N1 N2) :
    2 * (reference : DeviceParameters ℚ).N_max = 8 ∧
    (Outer_Loop_binary32 4 w).sumsum_Z ≤ 25 * 2 ^ 100 ∧
    (Outer_Loop_binary32 4 w).sumsum_moy ≤ 8 * (Outer_Loop_binary32 4 w).sumsum_Z ∧
    0 ≤ rounded_nb_electrons_binary32 4 w ∧
    rounded_nb_electrons_binary32 4 w ≤ 32768 ∧
    (rounded_nb_electrons_binary32 4 w ≠ 32768 →
      toShort (rounded_nb_electrons_binary32 4 w) = rounded_nb_electrons_binary32 4 w ∧
      (0 : ℚ) ≤ decode_occupation (toShort (rounded_nb_electrons_binary32 4 w)) ∧
      (decode_occupation (toShort (rounded_nb_electrons_binary32 4 w)) : ℚ) < 8) := by
  obtain ⟨-, -, h0, h1⟩ := rounded_nb_electrons_binary32_mem w hw hfl
  refine ⟨rfl, Outer_Loop_binary32_Z_le w hfin, (Outer_Loop_binary32_M w hw hfl).2, h0, h1,
    fun hne => ?_⟩
  have hs : toShort (rounded_nb_electrons_binary32 4 w) = rounded_nb_electrons_binary32 4 w :=
    toShort_of_mem _ (by omega) (by omega)
  rw [hs]
  have c0 : (0 : ℚ) ≤ (rounded_nb_electrons_binary32 4 w : ℤ) := by exact_mod_cast h0
  have c1 : ((rounded_nb_electrons_binary32 4 w : ℤ) : ℚ) ≤ 32767 := by
    have : rounded_nb_electrons_binary32 4 w ≤ 32767 := by omega
    exact_mod_cast this
  refine ⟨rfl, ?_, ?_⟩
  · rw [decode_occupation, OUT_factor_eq]
    exact div_nonneg (by linarith) (by norm_num)
  · rw [decode_occupation, OUT_factor_eq, div_lt_iff₀ (by norm_num)]
    linarith

/-- Witness of C7 as amended: the table with the weight 1 at `(0, 0)` and 0 elsewhere. -/
theorem range_bound_without_overflow_witness :
    (∀ N1 N2, 0 ≤ single_weight 0 0 1 N1 N2) ∧
    (∀ N1 N2, single_weight 0 0 1 N1 N2 ≤ 2 ^ 100) ∧
    (∀ N1 N2, fl32 (single_weight 0 0 1 N1 N2) = single_weight 0 0 1 N1 N2) ∧
    0 ≤ rounded_nb_electrons_binary32 4 (single_weight 0 0 1) ∧
    rounded_nb_electrons_binary32 4 (single_weight 0 0 1) ≤ 32768 :=
  ⟨single_weight_nonneg 0 0 1 (by norm_num),
    single_weight_le 0 0 1 _ (by norm_num) (by norm_num),
    single_weight_fl32 0 0 1 fl32_eight.2.2,
    (range_bound_without_overflow (single_weight 0 0 1)
      (single_weight_nonneg 0 0 1 (by norm_num))
      (single_weight_le 0 0 1 _ (by norm_num) (by norm_num))
      (single_weight_fl32 0 0 1 fl32_eight.2.2)).2.2.2.1,
    (range_bound_without_overflow (single_weight 0 0 1)
      (single_weight_nonneg 0 0 1 (by norm_num))
      (single_weight_le 0 0 1 _ (by norm_num) (by norm_num))
      (single_weight_fl32 0 0 1 fl32_eight.2.2)).2.2.2.2.1⟩

section Symmetry

variable {K : Type} [LinearOrderedField K]

theorem E_swap (p : DeviceParameters K) (hg : p.Cg1 = p.Cg2) (hc : p.CL = p.CR)
    (Vg1 Vg2 Cm : K) (N1 N2 : ℕ) :
    E p Vg1 Vg2 Cm N1 N2 = E p Vg2 Vg1 Cm N2 N1 := by
  simp only [E, param1, param2, param3, E_C1, E_C2, E_Cm, C1, C2, Cg1_carre, Cg2_carre,
    Cg1_Cg2, hg, hc]
  push_cast
  ring

theorem C1_eq_C2_of_equal (p : DeviceParameters K) (hg : p.Cg1 = p.Cg2) (hc : p.CL = p.CR)
    (Cm : K) : C1 p Cm = C2 p Cm := by
  simp only [C1, C2, hg, hc]

theorem C1_binary32_eq_C2_binary32 (p : DeviceParameters ℚ) (hg : p.Cg1 = p.Cg2)
    (hc : p.CL = p.CR) (Cm : ℚ) : C1_binary32 p Cm = C2_binary32 p Cm := by
  simp only [C1_binary32, C2_binary32, hg, hc]

theorem param1_binary32_swap (p : DeviceParameters ℚ) (hg : p.Cg1 = p.Cg2) (hc : p.CL = p.CR)
    (Cm : ℚ) (N1 N2 : ℕ) : param1_binary32 p Cm N1 N2 = param1_binary32 p Cm N2 N1 := by
  simp only [param1_binary32, C1_binary32_eq_C2_binary32 p hg hc Cm]
  rw [add_comm (fl32 (((N1 * N1 : ℕ) : ℚ) * C2_binary32 p Cm)), Nat.mul_comm N1 N2]

theorem param2_binary32_swap (p : DeviceParameters ℚ) (hg : p.Cg1 = p.Cg2) (hc : p.CL = p.CR)
    (V1 V2 : ℤ) (Cm : ℚ) (N1 N2 : ℕ) :
    param2_binary32 p V1 V2 Cm N1 N2 = param2_binary32 p V2 V1 Cm N2 N1 := by
  simp only [param2_binary32, C1_binary32_eq_C2_binary32 p hg hc Cm, hg]
  rw [add_comm (fl32 (fl32 (fl32 ((N1 : ℚ) * C2_binary32 p Cm) + fl32 ((N2 : ℚ) * Cm)) *
      fl32 (fl32 p.Cg2 * Vg_binary32 V1))),
    add_comm (fl32 ((N1 : ℚ) * Cm)), add_comm (fl32 ((N1 : ℚ) * C2_binary32 p Cm))]

end Symmetry

/-- C8, as the code has it: with the device constants as parameters, if `Cg1 = Cg2` and
`CL = CR` then in `float` arithmetic `C1 = C2` and the terms `param1` and `param2` of
`(N1, N2)` at `(V1, V2)` are those of `(N2, N1)` at `(V2, V1)`; and as formulas of exact
arithmetic the energy, the Boltzmann argument and the weight of `(N1, N2)` at `(V1, V2)` are
those of `(N2, N1)` at `(V2, V1)`.  (Nothing is said of `param3` and of the sums in `float`
arithmetic, nor of the returned codes, which can differ.) -/
theorem exchange_symmetry (p : DeviceParameters ℚ) (hg : p.Cg1 = p.Cg2) (hc : p.CL = p.CR)
    (expf : ℚ → ℚ) (V1 V2 : ℤ) (Cm : ℚ) (N1 N2 : ℕ) :
    C1_binary32 p Cm = C2_binary32 p Cm ∧
    param1_binary32 p Cm N1 N2 = param1_binary32 p Cm N2 N1 ∧
    param2_binary32 p V1 V2 Cm N1 N2 = param2_binary32 p V2 V1 Cm N2 N1 ∧
    C1 p Cm = C2 p Cm ∧
    E p (Vg V1) (Vg V2) Cm N1 N2 = E p (Vg V2) (Vg V1) Cm N2 N1 ∧
    arg p (Vg V1) (Vg V2) Cm N1 N2 = arg p (Vg V2) (Vg V1) Cm N2 N1 ∧
    exp_arg p expf V1 V2 Cm N1 N2 = exp_arg p expf V2 V1 Cm N2 N1 := by
  have hE := E_swap p hg hc (Vg V1) (Vg V2) Cm N1 N2
  have ha : arg p (Vg V1) (Vg V2) Cm N1 N2 = arg p (Vg V2) (Vg V1) Cm N2 N1 := by
    rw [arg, arg, hE]
  exact ⟨C1_binary32_eq_C2_binary32 p hg hc Cm, param1_binary32_swap p hg hc Cm N1 N2,
    param2_binary32_swap p hg hc V1 V2 Cm N1 N2, C1_eq_C2_of_equal p hg hc Cm, hE, ha,
    by rw [exp_arg, exp_arg, ha]⟩

/-- Witness of C8 as amended: the gate capacitances `Cg1 = Cg2 = 3` of the header's second
set, codes 100 and 200, `Cm = 0.2`, configurations `(3, 1)` and `(1, 3)`. -/
theorem exchange_symmetry_witness :
    (equal_gates : DeviceParameters ℚ).Cg1 = (equal_gates : DeviceParameters ℚ).Cg2 ∧
    (equal_gates : DeviceParameters ℚ).CL = (equal_gates : DeviceParameters ℚ).CR ∧
    param2_binary32 equal_gates 100 200 (1 / 5) 3 1 =
      param2_binary32 equal_gates 200 100 (1 / 5) 1 3 ∧
    arg (equal_gates : DeviceParameters ℚ) (Vg 100) (Vg 200) (1 / 5) 3 1 =
      arg (equal_gates : DeviceParameters ℚ) (Vg 200) (Vg 100) (1 / 5) 1 3 :=
  ⟨rfl, rfl, (exchange_symmetry equal_gates rfl rfl id 100 200 (1 / 5) 3 1).2.2.1,
    (exchange_symmetry equal_gates rfl rfl id 100 200 (1 / 5) 3 1).2.2.2.2.2.1⟩

section UnderflowInputs

variable {K : Type} [LinearOrderedField K]

theorem reference_arg_fifth (V1 V2 : ℤ) (N1 N2 : ℕ) :
    arg (reference : DeviceParameters K) (Vg V1) (Vg V2) (1 / 5) N1 N2 =
      -(2500 / 89) * (0.9 * ((N1 : K) - 2.8 * V1 / 32767) ^ 2 +
        ((N2 : K) - 2.4 * V2 / 32767) ^ 2 +
        0.2 * ((N1 : K) - 2.8 * V1 / 32767) * ((N2 : K) - 2.4 * V2 / 32767)) := by
  rw [reference_arg_eq]
  norm_num
  ring

/-- With `V2 = -32768` and `Cm = 0.2` every Boltzmann argument is below `-104`, whatever
`V1` and the configuration. -/
theorem reference_arg_lt_of_V2_min (V1 : ℤ) (N1 N2 : ℕ) :
    arg (reference : DeviceParameters K) (Vg V1) (Vg (-32768)) (1 / 5) N1 N2 < -104 := by
  rw [reference_arg_fifth]
  have h2 : (0 : K) ≤ N2 := Nat.cast_nonneg _
  have hd : (12 / 5 : K) ≤ (N2 : K) - 2.4 * ((-32768 : ℤ) : K) / 32767 := by
    push_cast
    norm_num
    linarith
  generalize (N2 : K) - 2.4 * ((-32768 : ℤ) : K) / 32767 = d2 at hd
  generalize (N1 : K) - 2.8 * (V1 : K) / 32767 = d1
  have hsq : (12 / 5 : K) ^ 2 ≤ d2 ^ 2 := by nlinarith
  norm_num at hsq ⊢
  nlinarith [sq_nonneg (d1 + d2 / 9), sq_nonneg d2]

theorem reference_exp_arg_underflow (expf : K → K) (hund : ∀ x, x < -104 → expf x = 0)
    (V1 : ℤ) (N1 N2 : ℕ) :
    exp_arg (reference : DeviceParameters K) expf V1 (-32768) (1 / 5) N1 N2 = 0 :=
  hund _ (reference_arg_lt_of_V2_min V1 N1 N2)

theorem reference_underflow_returns_zero [FloorRing K] (expf : K → K)
    (hund : ∀ x, x < -104 → expf x = 0) (V1 : ℤ) :
    (Outer_Loop (reference : DeviceParameters K) expf V1 (-32768) (1 / 5)).sumsum_Z = 0 ∧
    quantum_dot_simulator (reference : DeviceParameters K) expf V1 (-32768) (1 / 5) = 0 := by
  have hZ := (sumsum_of_weights_zero (reference : DeviceParameters K) expf V1 (-32768) (1 / 5)
    (reference_exp_arg_underflow expf hund V1)).1
  exact ⟨hZ, by rw [quantum_dot_simulator_eq, if_pos hZ]⟩

/-- When every weight but the one of `(0, 0)` is 0, the moment sum is 0. -/
theorem sumsum_moy_of_only_origin (p : DeviceParameters K) (expf : K → K) (V1 V2 : ℤ) (Cm : K)
    (h : ∀ N1 N2 : ℕ, N1 ≠ 0 ∨ N2 ≠ 0 → exp_arg p expf V1 V2 Cm N1 N2 = 0) :
    (Outer_Loop p expf V1 V2 Cm).sumsum_moy = 0 := by
  rw [Outer_Loop_sumsum_moy]
  refine Finset.sum_eq_zero fun N2 _ => Finset.sum_eq_zero fun N1 _ => ?_
  by_cases h0 : N1 = 0 ∧ N2 = 0
  · rw [h0.1, h0.2]
    simp
  · rw [h N1 N2 (by omega), mul_zero]

/-- When the weight of `(0, 0)` is not 0, neither is the partition sum. -/
theorem sumsum_Z_ne_zero_of_origin (p : DeviceParameters K) (expf : K → K)
    (hnn : ∀ x, 0 ≤ expf x) (V1 V2 : ℤ) (Cm : K) (h : exp_arg p expf V1 V2 Cm 0 0 ≠ 0) :
    (Outer_Loop p expf V1 V2 Cm).sumsum_Z ≠ 0 := by
  intro hZ
  rw [sumsum_Z_eq_zero_iff p expf hnn] at hZ
  exact h (hZ 0 (Finset.mem_range.2 (Nat.succ_pos _)) 0 (Finset.mem_range.2 (Nat.succ_pos _)))

/-- At `V1 = V2 = -10000`, `Cm = 0.2` the argument of `(0, 0)` is not below `-104`. -/
theorem reference_arg_origin_ge :
    (-104 : K) ≤ arg (reference : DeviceParameters K) (Vg (-10000)) (Vg (-10000)) (1 / 5) 0 0 := by
  rw [reference_arg_fifth]
  push_cast
  norm_num

/-- At `V1 = V2 = -10000`, `Cm = 0.2` the argument of every other configuration is below
`-104`. -/
theorem reference_arg_off_origin_lt (N1 N2 : ℕ) (h : N1 ≠ 0 ∨ N2 ≠ 0) :
    arg (reference : DeviceParameters K) (Vg (-10000)) (Vg (-10000)) (1 / 5) N1 N2 < -104 := by
  rw [reference_arg_fifth]
  have e1 : (N1 : K) - 2.8 * ((-10000 : ℤ) : K) / 32767 = (N1 : K) + 28000 / 32767 := by
    push_cast; ring
  have e2 : (N2 : K) - 2.4 * ((-10000 : ℤ) : K) / 32767 = (N2 : K) + 24000 / 32767 := by
    push_cast; ring
  rw [e1, e2]
  have h1 : (0 : K) ≤ N1 := Nat.cast_nonneg _
  have h2 : (0 : K) ≤ N2 := Nat.cast_nonneg _
  rcases h with h | h
  · have h1' : (1 : K) ≤ N1 := by exact_mod_cast Nat.one_le_iff_ne_zero.2 h
    have hd1 : (60767 / 32767 : K) ≤ (N1 : K) + 28000 / 32767 := by linarith
    have hd2 : (24000 / 32767 : K) ≤ (N2 : K) + 24000 / 32767 := by linarith
    generalize (N1 : K) + 28000 / 32767 = d1 at hd1
    generalize (N2 : K) + 24000 / 32767 = d2 at hd2
    have s1 : (60767 / 32767 : K) ^ 2 ≤ d1 ^ 2 := by nlinarith
    have s2 : (24000 / 32767 : K) ^ 2 ≤ d2 ^ 2 := by nlinarith
    have s3 : (60767 / 32767 : K) * (24000 / 32767) ≤ d1 * d2 := by
      apply mul_le_mul hd1 hd2 (by norm_num) (by linarith)
    norm_num at s1 s2 s3 ⊢
    linarith
  · have h2' : (1 : K) ≤ N2 := by exact_mod_cast Nat.one_le_iff_ne_zero.2 h
    have hd1 : (28000 / 32767 : K) ≤ (N1 : K) + 28000 / 32767 := by linarith
    have hd2 : (56767 / 32767 : K) ≤ (N2 : K) + 24000 / 32767 := by linarith
    generalize (N1 : K) + 28000 / 32767 = d1 at hd1
    generalize (N2 : K) + 24000 / 32767 = d2 at hd2
    have s1 : (28000 / 32767 : K) ^ 2 ≤ d1 ^ 2 := by nlinarith
    have s2 : (56767 / 32767 : K) ^ 2 ≤ d2 ^ 2 := by nlinarith
    have s3 : (28000 / 32767 : K) * (56767 / 32767) ≤ d1 * d2 := by
      apply mul_le_mul hd1 hd2 (by norm_num) (by linarith)
    norm_num at s1 s2 s3 ⊢
    linarith

theorem underflow_exp_nonneg (x : ℝ) : 0 ≤ underflow_below (-104) Real.exp x :=
  underflow_below_nonneg _ _ (fun x => (Real.exp_pos x).le) x

theorem underflow_exp_zero (x : ℝ) (h : x < -104) : underflow_below (-104) Real.exp x = 0 :=
  underflow_below_of_lt _ _ h

end UnderflowInputs

/-- C6, refuted as stated: with the header's constants at `V1 = 32767`, `V2 = -32768`,
`Cm = 0.2`, all 25 Boltzmann arguments are below `-104`, in `float` arithmetic as in exact
arithmetic.  For every exponential on the binary32 numbers that returns 0 below `-104`, as
`hls::exp` does, all 25 weights are 0, `sumsum_Z` is 0, not positive, and the kernel returns
0 through the branch `sumsum_Z == 0`; so does the kernel in exact arithmetic with the real
exponential cut off below `-104`. -/
theorem partition_function_underflow_counterexample :
    (∀ N1 ∈ List.range 5, ∀ N2 ∈ List.range 5,
      arg_binary32 reference 32767 (-32768) (fl32 0.2) N1 N2 < -104) ∧
    (∀ expf : ℚ → ℚ, (∀ x, x < -104 → expf x = 0) →
      (Outer_Loop_binary32 4 fun N1 N2 =>
        expf (arg_binary32 reference 32767 (-32768) (fl32 0.2) N1 N2)).sumsum_Z = 0 ∧
      ¬ (0 < (Outer_Loop_binary32 4 fun N1 N2 =>
        expf (arg_binary32 reference 32767 (-32768) (fl32 0.2) N1 N2)).sumsum_Z) ∧
      quantum_dot_simulator_binary32 reference expf 32767 (-32768) (fl32 0.2) = 0) ∧
    (∀ N1 N2 : ℕ, arg (reference : DeviceParameters ℝ) (Vg 32767) (Vg (-32768)) (1 / 5) N1 N2 <
      -104) ∧
    (Outer_Loop (reference : DeviceParameters ℝ) (underflow_below (-104) Real.exp) 32767 (-32768)
      (1 / 5)).sumsum_Z = 0 ∧
    ¬ (0 < (Outer_Loop (reference : DeviceParameters ℝ) (underflow_below (-104) Real.exp) 32767
      (-32768) (1 / 5)).sumsum_Z) ∧
    quantum_dot_simulator (reference : DeviceParameters ℝ) (underflow_below (-104) Real.exp)
      32767 (-32768) (1 / 5) = 0 := by
  obtain ⟨hZ, hs⟩ := reference_underflow_returns_zero (underflow_below (-104) Real.exp)
    underflow_exp_zero 32767
  refine ⟨arg_binary32_underflow, fun expf h0 => ?_,
    fun N1 N2 => reference_arg_lt_of_V2_min 32767 N1 N2, hZ, by rw [hZ]; exact lt_irrefl 0, hs⟩
  obtain ⟨hZb, hsb⟩ := quantum_dot_simulator_binary32_zero expf h0 reference rfl 32767 (-32768)
    (fl32 0.2) arg_binary32_underflow
  exact ⟨hZb, by rw [hZb]; exact lt_irrefl 0, hsb⟩

/-- C6, as the code has it: for every table of 25 weights that are not negative and at most
`2^100`, the partition function the loops accumulate in `float` arithmetic is `≥ 0` and at
most `25 * 2^100`, below the largest `float`; it is 0 exactly when every one of the 25 weights
is 0, and then the kernel takes the branch `sumsum_Z == 0` and returns 0. -/
theorem partition_function_zero_iff (w : ℕ → ℕ → ℚ) (hw : ∀ N1 N2, 0 ≤ w N1 N2)
    (hfin : ∀ N1 N2, w N1 N2 ≤ 2 ^ 100) :
    (reference : DeviceParameters ℚ).N_max = 4 ∧
    0 ≤ (Outer_Loop_binary32 4 w).sumsum_Z ∧
    (Outer_Loop_binary32 4 w).sumsum_Z ≤ 25 * 2 ^ 100 ∧
    ((Outer_Loop_binary32 4 w).sumsum_Z = 0 ↔
      ∀ N2 ∈ List.range 5, ∀ N1 ∈ List.range 5, w N1 N2 = 0) ∧
    ((Outer_Loop_binary32 4 w).sumsum_Z = 0 →
      rounded_nb_electrons_binary32 4 w = 0 ∧ toShort (rounded_nb_electrons_binary32 4 w) = 0) := by
  obtain ⟨h1, h2⟩ := Outer_Loop_binary32_Z 4 w hw
  refine ⟨rfl, h1, Outer_Loop_binary32_Z_le w hfin, h2, fun hZ => ?_⟩
  have : rounded_nb_electrons_binary32 4 w = 0 := by
    unfold rounded_nb_electrons_binary32
    simp only [hZ, if_true]
  rw [this]
  exact ⟨rfl, rfl⟩

/-- Witness of C6 as amended: the table with the weight 1 at `(0, 0)` and 0 elsewhere. -/
theorem partition_function_zero_iff_witness :
    (∀ N1 N2, 0 ≤ single_weight 0 0 1 N1 N2) ∧
    (∀ N1 N2, single_weight 0 0 1 N1 N2 ≤ 2 ^ 100) ∧
    0 ≤ (Outer_Loop_binary32 4 (single_weight 0 0 1)).sumsum_Z :=
  ⟨single_weight_nonneg 0 0 1 (by norm_num),
    single_weight_le 0 0 1 _ (by norm_num) (by norm_num),
    (partition_function_zero_iff (single_weight 0 0 1)
      (single_weight_nonneg 0 0 1 (by norm_num))
      (single_weight_le 0 0 1 _ (by norm_num) (by norm_num))).2.1⟩

/-- C13, refuted as stated, at both ends.  With the header's constants at `V1 = V2 = -10000`,
`Cm = 0.2`, only the argument of `(0, 0)` is not below `-104`, in `float` arithmetic (about
`-37.05`) as in exact arithmetic: for an exponential that returns 0 below `-104` only the
weight of `(0, 0)` is not 0, `sumsum_Z` is not 0, `sumsum_moy` is 0 and the occupation
`sumsum_moy / sumsum_Z` is 0, not strictly positive.  At `V1 = 18548`, `V2 = 25304`,
`Cm = -1776411/2^21`, in `float` arithmetic only the weight of `(4, 4)` is not 0 and the
occupation is 8, not strictly below 8. -/
theorem occupation_bounds_counterexample :
    (arg_binary32 reference (-10000) (-10000) (fl32 0.2) 0 0 = -4855677 / 131072 ∧
      ∀ N1 ∈ List.range 5, ∀ N2 ∈ List.range 5, ¬ (N1 = 0 ∧ N2 = 0) →
        arg_binary32 reference (-10000) (-10000) (fl32 0.2) N1 N2 < -104) ∧
    (∀ expf : ℚ → ℚ, (∀ x, x < -104 → expf x = 0) →
      expf (-4855677 / 131072) ≠ 0 → fl32 (expf (-4855677 / 131072)) = expf (-4855677 / 131072) →
      (Outer_Loop_binary32 4 fun N1 N2 =>
        expf (arg_binary32 reference (-10000) (-10000) (fl32 0.2) N1 N2)).sumsum_Z ≠ 0 ∧
      (Outer_Loop_binary32 4 fun N1 N2 =>
        expf (arg_binary32 reference (-10000) (-10000) (fl32 0.2) N1 N2)).sumsum_moy = 0) ∧
    (exp_arg (reference : DeviceParameters ℝ) (underflow_below (-104) Real.exp) (-10000)
      (-10000) (1 / 5) 0 0 ≠ 0 ∧
    (∀ N1 N2 : ℕ, N1 ≠ 0 ∨ N2 ≠ 0 →
      exp_arg (reference : DeviceParameters ℝ) (underflow_below (-104) Real.exp) (-10000)
        (-10000) (1 / 5) N1 N2 = 0) ∧
    (Outer_Loop (reference : DeviceParameters ℝ) (underflow_below (-104) Real.exp) (-10000)
      (-10000) (1 / 5)).sumsum_Z ≠ 0 ∧
    (Outer_Loop (reference : DeviceParameters ℝ) (underflow_below (-104) Real.exp) (-10000)
      (-10000) (1 / 5)).sumsum_moy = 0 ∧
    ¬ (0 < (Outer_Loop (reference : DeviceParameters ℝ) (underflow_below (-104) Real.exp)
        (-10000) (-10000) (1 / 5)).sumsum_moy /
      (Outer_Loop (reference : DeviceParameters ℝ) (underflow_below (-104) Real.exp) (-10000)
        (-10000) (1 / 5)).sumsum_Z)) ∧
    ∀ expf : ℚ → ℚ, (∀ x, x < -104 → expf x = 0) → expf 0 = 1 →
      (Outer_Loop_binary32 4 fun N1 N2 =>
        expf (arg_binary32 reference 18548 25304 (-1776411 / 2097152) N1 N2)).sumsum_Z = 1 ∧
      (Outer_Loop_binary32 4 fun N1 N2 =>
        expf (arg_binary32 reference 18548 25304 (-1776411 / 2097152) N1 N2)).sumsum_moy = 8 ∧
      ¬ ((Outer_Loop_binary32 4 fun N1 N2 =>
          expf (arg_binary32 reference 18548 25304 (-1776411 / 2097152) N1 N2)).sumsum_moy /
        (Outer_Loop_binary32 4 fun N1 N2 =>
          expf (arg_binary32 reference 18548 25304 (-1776411 / 2097152) N1 N2)).sumsum_Z <
          8) := by
  have h00 : exp_arg (reference : DeviceParameters ℝ) (underflow_below (-104) Real.exp) (-10000)
      (-10000) (1 / 5) 0 0 ≠ 0 := by
    rw [exp_arg, underflow_below_of_le _ _ reference_arg_origin_ge]
    exact (Real.exp_pos _).ne.symm
  have hoff : ∀ N1 N2 : ℕ, N1 ≠ 0 ∨ N2 ≠ 0 →
      exp_arg (reference : DeviceParameters ℝ) (underflow_below (-104) Real.exp) (-10000)
        (-10000) (1 / 5) N1 N2 = 0 := fun N1 N2 h =>
    underflow_below_of_lt _ _ (reference_arg_off_origin_lt N1 N2 h)
  have hM := sumsum_moy_of_only_origin _ _ _ _ _ hoff
  refine ⟨arg_binary32_origin, fun expf h0 hne hfl => ?_,
    ⟨h00, hoff, sumsum_Z_ne_zero_of_origin _ _ underflow_exp_nonneg _ _ _ h00, hM, ?_⟩,
    fun expf h0 h1 => ?_⟩
  · have hw : ∀ N1 ∈ List.range (4 + 1), ∀ N2 ∈ List.range (4 + 1),
        (fun N1 N2 => expf (arg_binary32 reference (-10000) (-10000) (fl32 0.2) N1 N2)) N1 N2 =
          (fun N1 N2 => if N1 = 0 ∧ N2 = 0 then expf (-4855677 / 131072) else 0) N1 N2 := by
      intro N1 hN1 N2 hN2
      by_cases hc : N1 = 0 ∧ N2 = 0
      · obtain ⟨rfl, rfl⟩ := hc
        simp only [arg_binary32_origin.1, and_self, if_true]
      · simp only [if_neg hc]
        exact h0 _ (arg_binary32_origin.2 N1 hN1 N2 hN2 hc)
    rw [Outer_Loop_binary32_congr 4 _ _ hw, (Outer_Loop_binary32_origin _ hfl).1,
      (Outer_Loop_binary32_origin _ hfl).2]
    exact ⟨hne, rfl⟩
  · rw [hM, zero_div]
    exact lt_irrefl 0
  · have hw := weights_binary32_single reference expf h0 h1 18548 25304 (-1776411 / 2097152) 4 4
      arg_binary32_top.1 arg_binary32_top.2
    rw [Outer_Loop_binary32_congr 4 _ _ hw, Outer_Loop_binary32_top.1, Outer_Loop_binary32_top.2.1]
    norm_num

/-- C13, as the code has it: with `N_max = 4`, for every table of 25 `float` weights that are
not negative and at most `2^100` and for which `sumsum_Z` is not 0 (the branch that divides),
in `float` arithmetic `0 < sumsum_Z ≤ 25 * 2^100`, `0 ≤ sumsum_moy ≤ 8 * sumsum_Z`, the
occupation `sumsum_moy / sumsum_Z` the code computes lies in `[0, 2 * N_max] = [0, 8]`, both
ends included, and the value the kernel rounds lies in `[0, 32768]`. -/
theorem occupation_inside (w : ℕ → ℕ → ℚ) (hw : ∀ N1 N2, 0 ≤ w N1 N2)
    (hfin : ∀ N1 N2, w N1 N2 ≤ 2 ^ 100) (hfl : ∀ N1 N2, fl32 (w N1 N2) = w N1 N2)
    (hZ : (Outer_Loop_binary32 4 w).sumsum_Z ≠ 0) :
    2 * (reference : DeviceParameters ℚ).N_max = 8 ∧
    0 < (Outer_Loop_binary32 4 w).sumsum_Z ∧
    (Outer_Loop_binary32 4 w).sumsum_Z ≤ 25 * 2 ^ 100 ∧
    0 ≤ (Outer_Loop_binary32 4 w).sumsum_moy ∧
    (Outer_Loop_binary32 4 w).sumsum_moy ≤ 8 * (Outer_Loop_binary32 4 w).sumsum_Z ∧
    0 ≤ fl32 ((Outer_Loop_binary32 4 w).sumsum_moy / (Outer_Loop_binary32 4 w).sumsum_Z) ∧
    fl32 ((Outer_Loop_binary32 4 w).sumsum_moy / (Outer_Loop_binary32 4 w).sumsum_Z) ≤ 8 ∧
    0 ≤ rounded_nb_electrons_binary32 4 w ∧
    rounded_nb_electrons_binary32 4 w ≤ 32768 := by
  obtain ⟨hZ0, -⟩ := Outer_Loop_binary32_Z 4 w hw
  obtain ⟨hM0, hM8⟩ := Outer_Loop_binary32_M w hw hfl
  obtain ⟨a0, a8, r0, r8⟩ := rounded_nb_electrons_binary32_mem w hw hfl
  exact ⟨rfl, lt_of_le_of_ne hZ0 (Ne.symm hZ), Outer_Loop_binary32_Z_le w hfin, hM0, hM8, a0,
    a8, r0, r8⟩

/-- Witness of C13 as amended: the table with the weight 1 at `(0, 0)` and 0 elsewhere, for
which `sumsum_Z = 1` and the occupation is 0. -/
theorem occupation_inside_witness :
    (∀ N1 N2, 0 ≤ single_weight 0 0 1 N1 N2) ∧
    (∀ N1 N2, single_weight 0 0 1 N1 N2 ≤ 2 ^ 100) ∧
    (∀ N1 N2, fl32 (single_weight 0 0 1 N1 N2) = single_weight 0 0 1 N1 N2) ∧
    (Outer_Loop_binary32 4 (single_weight 0 0 1)).sumsum_Z ≠ 0 ∧
    0 ≤ fl32 ((Outer_Loop_binary32 4 (single_weight 0 0 1)).sumsum_moy /
      (Outer_Loop_binary32 4 (single_weight 0 0 1)).sumsum_Z) ∧
    fl32 ((Outer_Loop_binary32 4 (single_weight 0 0 1)).sumsum_moy /
      (Outer_Loop_binary32 4 (single_weight 0 0 1)).sumsum_Z) ≤ 8 :=
  have hZ : (Outer_Loop_binary32 4 (single_weight 0 0 1)).sumsum_Z ≠ 0 := by
    have h := (Outer_Loop_binary32_origin 1 fl32_eight.2.2).1
    unfold single_weight
    rw [h]
    norm_num
  ⟨single_weight_nonneg 0 0 1 (by norm_num),
    single_weight_le 0 0 1 _ (by norm_num) (by norm_num),
    single_weight_fl32 0 0 1 fl32_eight.2.2, hZ,
    (occupation_inside (single_weight 0 0 1)
      (single_weight_nonneg 0 0 1 (by norm_num))
      (single_weight_le 0 0 1 _ (by norm_num) (by norm_num))
      (single_weight_fl32 0 0 1 fl32_eight.2.2) hZ).2.2.2.2.2.1,
    (occupation_inside (single_weight 0 0 1)
      (single_weight_nonneg 0 0 1 (by norm_num))
      (single_weight_le 0 0 1 _ (by norm_num) (by norm_num))
      (single_weight_fl32 0 0 1 fl32_eight.2.2) hZ).2.2.2.2.2.2.1⟩

/-- C15, refuted as stated: in `float` arithmetic with the header's constants (`e = 1`) and
`Cm = 0.2f`, `C1` and the determinant are positive, yet at `V1 = 0`, `V2 = 13653` the energy
of `(0, 1)` rounds to `-2^-23`, below 0, with an argument above 0; and at `V1 = 32767`,
`V2 = -32768` all arguments are below `-104`, so for every exponential that returns 0 below
`-104` every weight is 0, outside `(0, 1]`, and `sumsum_Z` is 0, not positive. -/
theorem weights_binary32_counterexample :
    (reference : DeviceParameters ℚ).e ≠ 0 ∧
    0 < C1_binary32 reference (fl32 0.2) ∧
    0 < C_arg_binary32 reference (fl32 0.2) ∧
    E_binary32 reference 0 13653 (fl32 0.2) 0 1 = -1 / 8388608 ∧
    ¬ (0 ≤ E_binary32 reference 0 13653 (fl32 0.2) 0 1) ∧
    0 < arg_binary32 reference 0 13653 (fl32 0.2) 0 1 ∧
    ∀ expf : ℚ → ℚ, (∀ x, x < -104 → expf x = 0) →
      (∀ N1 ∈ List.range 5, ∀ N2 ∈ List.range 5,
        expf (arg_binary32 reference 32767 (-32768) (fl32 0.2) N1 N2) = 0 ∧
        ¬ (0 < expf (arg_binary32 reference 32767 (-32768) (fl32 0.2) N1 N2))) ∧
      ¬ (0 < (Outer_Loop_binary32 4 fun N1 N2 =>
        expf (arg_binary32 reference 32767 (-32768) (fl32 0.2) N1 N2)).sumsum_Z) := by
  refine ⟨by decide!, by decide!, by decide!, E_binary32_negative.1, ?_, E_binary32_negative.2,
    fun expf h0 => ⟨fun N1 h1 N2 h2 => ?_, ?_⟩⟩
  · rw [E_binary32_negative.1]
    norm_num
  · have hz := h0 _ (arg_binary32_underflow N1 h1 N2 h2)
    exact ⟨hz, by rw [hz]; exact lt_irrefl 0⟩
  · rw [(quantum_dot_simulator_binary32_zero expf h0 reference rfl 32767 (-32768) (fl32 0.2)
      arg_binary32_underflow).1]
    exact lt_irrefl 0

/-- C15, as the code has it: for `e ≠ 0`, in exact arithmetic the energy
`param1 + param2 + param3` of the code is the completed square
`0.5*(C2*d1^2 + C1*d2^2) + Cm*d1*d2` with `d1 = N1 - Cg1*Vg1/|e|` and
`d2 = N2 - Cg2*Vg2/|e|`. -/
theorem energy_completed_square {K : Type} [LinearOrderedField K] (p : DeviceParameters K)
    (he : p.e ≠ 0) (Vg1 Vg2 Cm : K) (N1 N2 : ℕ) :
    E p Vg1 Vg2 Cm N1 N2 =
      0.5 * (C2 p Cm * ((N1 : K) - p.Cg1 * Vg1 / |p.e|) ^ 2 +
          C1 p Cm * ((N2 : K) - p.Cg2 * Vg2 / |p.e|) ^ 2) +
        Cm * ((N1 : K) - p.Cg1 * Vg1 / |p.e|) * ((N2 : K) - p.Cg2 * Vg2 / |p.e|) :=
  E_completed_square p he Vg1 Vg2 Cm N1 N2

/-- Witness of C15 as amended: the header's constants, codes 100 and 200, `Cm = 0.2`,
configuration `(3, 2)`. -/
theorem energy_completed_square_witness :
    (reference : DeviceParameters ℚ).e ≠ 0 ∧
    E (reference : DeviceParameters ℚ) (Vg 100) (Vg 200) (1 / 5) 3 2 =
      0.5 * (C2 (reference : DeviceParameters ℚ) (1 / 5) *
            (((3 : ℕ) : ℚ) - (reference : DeviceParameters ℚ).Cg1 * Vg 100 /
              |(reference : DeviceParameters ℚ).e|) ^ 2 +
          C1 (reference : DeviceParameters ℚ) (1 / 5) *
            (((2 : ℕ) : ℚ) - (reference : DeviceParameters ℚ).Cg2 * Vg 200 /
              |(reference : DeviceParameters ℚ).e|) ^ 2) +
        1 / 5 * (((3 : ℕ) : ℚ) - (reference : DeviceParameters ℚ).Cg1 * Vg 100 /
              |(reference : DeviceParameters ℚ).e|) *
          (((2 : ℕ) : ℚ) - (reference : DeviceParameters ℚ).Cg2 * Vg 200 /
              |(reference : DeviceParameters ℚ).e|) :=
  ⟨by simp only [reference]; norm_num,
    energy_completed_square reference (by simp only [reference]; norm_num) (Vg 100) (Vg 200)
      (1 / 5) 3 2⟩

end QuantumDot
